import Mathlib

/-!
Verification of the core of `1_gpx_simplifier.py` (class `GPXSimplifier`).

The embedding follows the Python source line by line:

* A `GPoint` models one parsed track-point dict `{lat, lon, time, element}`.
  Coordinates are rationals (the parser's float64 values), the optional
  timestamp is a rational count of epoch seconds, and `pid` is the point's
  stable identity: the Python code distinguishes points by object identity
  (`id(point)`, `p is point`) and dict equality, and because every parsed
  dict carries a distinct `element` object, dict equality coincides with
  identity; `pid` plays that role in the embedding.
* The geometric leaves `haversine_distance` and `calculate_bearing` are
  embedded over `ℝ` with the exact formulas from the source.  The
  algorithmic layer is parametrised by the distance function `d` (argument
  order `lat1 lon1 lat2 lon2`, as in the Python method) and the bearing
  function `b` that the code passes to them, so every control-flow theorem
  below holds in particular for the real haversine/bearing instantiation.
* Python `while` loops are embedded as fuel recursion; each wrapper passes
  `pts.length + 1` fuel, which is shown to be enough (each loop advances
  its index every iteration).
* `sorted(cluster, key=lambda p: p['time'])` raises `TypeError` in Python
  when a `None` timestamp is compared with a datetime, which happens
  exactly when some point of a (≥ 2 element) cluster lacks a timestamp;
  `simplify_bupt_cluster` therefore returns an `Option`, with `none`
  modelling the exception.  The sorts keyed by `p['time'] or datetime.min`
  are modelled by a stable insertion sort with `None` ordered first
  (`datetime.min` is below every timestamp occurring in data).
-/

namespace Gpx

/-- One parsed track point: `{'lat': .., 'lon': .., 'time': .., 'element': ..}`.
`pid` is the point's stable identity (Python object identity). -/
structure GPoint where
  pid : ℕ
  lat : ℚ
  lon : ℚ
  time : Option ℚ
deriving DecidableEq, Repr

instance : Inhabited GPoint := ⟨⟨0, 0, 0, none⟩⟩

/-- The constructor parameters of `GPXSimplifier.__init__` together with the
hardcoded `bupt_simplified_points_count`. -/
structure Config where
  stay_radius : ℚ
  min_stay_time : ℚ
  max_stay_points : ℕ
  moving_threshold : ℚ
  bupt_count : ℕ
deriving DecidableEq, Repr

/-- `self.bupt_area['min_lat'] = 39.95822855` (written as an integer fraction
so that concrete evaluations reduce in the kernel). -/
def bupt_min_lat : ℚ := 3995822855 / 100000000

/-- `self.bupt_area['max_lat'] = 39.96502929`. -/
def bupt_max_lat : ℚ := 3996502929 / 100000000

/-- `self.bupt_area['min_lon'] = 116.35502636`. -/
def bupt_min_lon : ℚ := 11635502636 / 100000000

/-- `self.bupt_area['max_lon'] = 116.36105597`. -/
def bupt_max_lon : ℚ := 11636105597 / 100000000

/-- `is_in_bupt_area`: bounding-box membership check. -/
def is_in_bupt_area (lat lon : ℚ) : Bool :=
  decide (bupt_min_lat ≤ lat ∧ lat ≤ bupt_max_lat ∧
    bupt_min_lon ≤ lon ∧ lon ≤ bupt_max_lon)

/-- A point with real coordinates, for the geometric leaves. -/
structure RPoint where
  lat : ℝ
  lon : ℝ

/-- `np.arctan2 y x`, i.e. the argument of the complex number `x + y i`
(`arctan2 0 0 = 0`, matching numpy). -/
noncomputable def arctan2 (y x : ℝ) : ℝ := Complex.arg ⟨x, y⟩

/-- `haversine_distance(lat1, lon1, lat2, lon2)`: the haversine formula on a
sphere of radius 6371000 m, with the degree→radian conversions of the source. -/
noncomputable def haversine_distance (lat1 lon1 lat2 lon2 : ℝ) : ℝ :=
  let rlat1 := lat1 * Real.pi / 180
  let rlon1 := lon1 * Real.pi / 180
  let rlat2 := lat2 * Real.pi / 180
  let rlon2 := lon2 * Real.pi / 180
  let dlat := rlat2 - rlat1
  let dlon := rlon2 - rlon1
  let a := Real.sin (dlat / 2) ^ 2 +
    Real.cos rlat1 * Real.cos rlat2 * Real.sin (dlon / 2) ^ 2
  let c := 2 * Real.arcsin (Real.sqrt a)
  c * 6371000

/-- `calculate_bearing(point1, point2)`: guarded azimuth computation; returns
`0.0` when the two points have identical coordinates. -/
noncomputable def calculate_bearing (p1 p2 : RPoint) : ℝ :=
  if p1.lat = p2.lat ∧ p1.lon = p2.lon then 0
  else
    let lat1 := p1.lat * Real.pi / 180
    let lon1 := p1.lon * Real.pi / 180
    let lat2 := p2.lat * Real.pi / 180
    let lon2 := p2.lon * Real.pi / 180
    let dlon := lon2 - lon1
    let y := Real.sin dlon * Real.cos lat2
    let x := Real.cos lat1 * Real.sin lat2 -
      Real.sin lat1 * Real.cos lat2 * Real.cos dlon
    arctan2 y x * 180 / Real.pi

/-- C9: `distance(p, p)` is exactly `0`, and `bearing` returns exactly `0.0`
whenever the two points have identical latitude and longitude.  Both embedded
functions are total Lean functions, so neither raises on any input. -/
theorem C9_degenerate_geometry :
    (∀ lat lon : ℝ, haversine_distance lat lon lat lon = 0) ∧
    (∀ p1 p2 : RPoint, p1.lat = p2.lat → p1.lon = p2.lon →
      calculate_bearing p1 p2 = 0) := by
  constructor
  · intro lat lon
    simp [haversine_distance]
  · intro p1 p2 h1 h2
    simp [calculate_bearing, h1, h2]

/-- Witness for C9 at the concrete coincident point `(39, 116)`. -/
theorem C9_degenerate_geometry_witness :
    haversine_distance 39 116 39 116 = 0 ∧
    calculate_bearing ⟨39, 116⟩ ⟨39, 116⟩ = 0 :=
  ⟨C9_degenerate_geometry.1 39 116,
    C9_degenerate_geometry.2 ⟨39, 116⟩ ⟨39, 116⟩ rfl rfl⟩

/-- Order on optional timestamps used by the Python sorts keyed by
`p['time'] or datetime.min`: a missing timestamp sorts first
(`datetime.min` is below every timestamp occurring in data). -/
def timeLE (a b : Option ℚ) : Bool :=
  match a, b with
  | none, _ => true
  | some _, none => false
  | some x, some y => decide (x ≤ y)

/-- Insert a point into an already sorted list, in front of the first element
whose key is not smaller — this makes `sortByTime` a stable sort, so it
computes the same list as Python's stable `list.sort` / `sorted`. -/
def insertTimed (p : GPoint) : List GPoint → List GPoint
  | [] => [p]
  | q :: rest =>
    if timeLE p.time q.time then p :: q :: rest else q :: insertTimed p rest

/-- Stable sort by timestamp, modelling `sorted(.., key=lambda p: p['time'])`
(on all-timestamped input) and `.sort(key=lambda p: p['time'] or datetime.min)`. -/
def sortByTime : List GPoint → List GPoint
  | [] => []
  | p :: rest => insertTimed p (sortByTime rest)

theorem insertTimed_perm (p : GPoint) (l : List GPoint) :
    List.Perm (insertTimed p l) (p :: l) := by
  induction l with
  | nil => simp [insertTimed]
  | cons q rest ih =>
    by_cases h : timeLE p.time q.time
    · simp [insertTimed, h]
    · simp only [insertTimed, h, if_false]
      exact (ih.cons q).trans (List.Perm.swap p q rest)

theorem sortByTime_perm (l : List GPoint) : List.Perm (sortByTime l) l := by
  induction l with
  | nil => simp [sortByTime]
  | cons p rest ih =>
    exact (insertTimed_perm p (sortByTime rest)).trans (ih.cons p)

theorem sortByTime_length (l : List GPoint) :
    (sortByTime l).length = l.length :=
  (sortByTime_perm l).length_eq

theorem sortByTime_subset (l : List GPoint) : sortByTime l ⊆ l :=
  (sortByTime_perm l).subset

theorem sortByTime_pid_nodup {l : List GPoint}
    (h : (l.map GPoint.pid).Nodup) : ((sortByTime l).map GPoint.pid).Nodup :=
  (((sortByTime_perm l).map GPoint.pid).nodup_iff).mpr h

/-- The dedup-by-`id` loops of the source (`seen_ids`), keeping the first
occurrence of every point identity. -/
def dedupByPidAux : List ℕ → List GPoint → List GPoint
  | _, [] => []
  | seen, p :: rest =>
    if p.pid ∈ seen then dedupByPidAux seen rest
    else p :: dedupByPidAux (p.pid :: seen) rest

/-- Deduplicate a list of points by identity (`id(p) not in seen_ids`). -/
def dedupByPid (l : List GPoint) : List GPoint := dedupByPidAux [] l

theorem dedupByPidAux_sublist (seen : List ℕ) (l : List GPoint) :
    (dedupByPidAux seen l).Sublist l := by
  induction l generalizing seen with
  | nil => simp [dedupByPidAux]
  | cons p rest ih =>
    by_cases h : p.pid ∈ seen
    · simp only [dedupByPidAux, h, if_true]
      exact (ih seen).trans (List.sublist_cons_self p rest)
    · simp only [dedupByPidAux, h, if_false]
      exact (ih (p.pid :: seen)).cons₂ p

theorem dedupByPidAux_pid_nodup (seen : List ℕ) (l : List GPoint) :
    ((dedupByPidAux seen l).map GPoint.pid).Nodup ∧
    ∀ x ∈ dedupByPidAux seen l, x.pid ∉ seen := by
  induction l generalizing seen with
  | nil => simp [dedupByPidAux]
  | cons p rest ih =>
    by_cases h : p.pid ∈ seen
    · simpa [dedupByPidAux, h] using ih seen
    · obtain ⟨ih1, ih2⟩ := ih (p.pid :: seen)
      simp only [dedupByPidAux, h, if_false, List.map_cons, List.nodup_cons]
      refine ⟨⟨?_, ih1⟩, ?_⟩
      · intro hmem
        obtain ⟨x, hx, hxp⟩ := List.exists_of_mem_map hmem
        exact (ih2 x hx) (by simp [hxp])
      · intro x hx
        rcases List.mem_cons.mp hx with he | ht
        · simpa [he] using h
        · intro hxs
          exact (ih2 x ht) (List.mem_cons_of_mem _ hxs)

theorem dedupByPid_sublist (l : List GPoint) : (dedupByPid l).Sublist l :=
  dedupByPidAux_sublist [] l

theorem dedupByPid_pid_nodup (l : List GPoint) :
    ((dedupByPid l).map GPoint.pid).Nodup :=
  (dedupByPidAux_pid_nodup [] l).1

/-- The incremental cluster mean of the source: arithmetic mean of the
latitudes and longitudes of the points currently in the candidate. -/
def clusterCenter (cand : List GPoint) : ℚ × ℚ :=
  ((cand.map GPoint.lat).sum / cand.length,
    (cand.map GPoint.lon).sum / cand.length)

/-- Lines 313–315 of `_simplify_bupt_cluster`: keep the cluster's first point
when at least one point is requested. -/
def buptStage1 (count : ℕ) (cluster : List GPoint) : List GPoint :=
  if 1 ≤ count then [cluster.headI] else []

/-- Lines 317–327 of `_simplify_bupt_cluster`: when at least two points are
requested, additionally keep the chronologically earliest and latest points
if both endpoints carry timestamps (this is where Python's
`sorted(cluster, key=lambda p: p['time'])` raises `TypeError` — modelled by
`none` — as soon as any point of the cluster lacks a timestamp), else keep
the cluster's last point. -/
def buptStage2 (count : ℕ) (cluster s1 : List GPoint) :
    Option (List GPoint) :=
  if 2 ≤ count then
    if (cluster.headI.time).isSome ∧ ((cluster.getLast!).time).isSome then
      if cluster.all (fun p => p.time.isSome) then
        let sc := sortByTime cluster
        let s2a := if sc.headI ∈ s1 then s1 else s1 ++ [sc.headI]
        some (if sc.getLast! ∈ s2a then s2a else s2a ++ [sc.getLast!])
      else none
    else some (if cluster.getLast! ∈ s1 then s1
      else s1 ++ [cluster.getLast!])
  else some s1

/-- Loop body of the `count >= 3` branch (lines 336–342): track the strictly
closest not-yet-selected point, `none` standing for `float('inf')` /
`central_point = None`. -/
def buptPickStep (d : ℚ → ℚ → ℚ → ℚ → ℚ) (c : ℚ × ℚ) (s2 : List GPoint)
    (acc : Option ℚ × Option GPoint) (p : GPoint) :
    Option ℚ × Option GPoint :=
  let dist := d p.lat p.lon c.1 c.2
  if (match acc.1 with
      | none => true
      | some m => decide (dist < m)) = true ∧ p ∉ s2 then
    ((some dist : Option ℚ), (some p : Option GPoint))
  else acc

/-- Lines 329–344 of `_simplify_bupt_cluster`: when at least three points are
requested, additionally keep the selected point nearest the cluster's full
arithmetic centroid, if any. -/
def buptStage3 (d : ℚ → ℚ → ℚ → ℚ → ℚ) (count : ℕ)
    (cluster s2 : List GPoint) : List GPoint :=
  if 3 ≤ count then
    match (cluster.foldl (buptPickStep d (clusterCenter cluster) s2)
        (none, none)).2 with
    | some cp => s2 ++ [cp]
    | none => s2
  else s2

/-- Lines 355–359 of `_simplify_bupt_cluster`: when the selection is short of
`count`, pad with the remaining cluster points in chronological order. -/
def buptPad (count : ℕ) (cluster final1 : List GPoint) : List GPoint :=
  if final1.length < count then
    final1 ++ (sortByTime (cluster.filter
      (fun p => p.pid ∉ final1.map GPoint.pid))).take
      (count - final1.length)
  else final1

/-- Lines 362–363 of `_simplify_bupt_cluster`: final chronological sort when
the first selected point has a timestamp. -/
def buptFinalSort (final2 : List GPoint) : List GPoint :=
  if final2.length ≠ 0 ∧ (final2.headI.time).isSome then sortByTime final2
  else final2

/-- `_simplify_bupt_cluster(bupt_cluster)`, parametrised by the distance
function `d` (the source calls `self.haversine_distance`) and by
`count = self.bupt_simplified_points_count`.  Returns `none` exactly when the
Python code raises (see `buptStage2`). -/
def simplify_bupt_cluster (d : ℚ → ℚ → ℚ → ℚ → ℚ) (count : ℕ)
    (cluster : List GPoint) : Option (List GPoint) :=
  if cluster.length = 0 then some []
  else if cluster.length ≤ count then some cluster
  else
    match buptStage2 count cluster (buptStage1 count cluster) with
    | none => none
    | some s2 =>
      some (buptFinalSort (buptPad count cluster
        (dedupByPid (buptStage3 d count cluster s2))))

/-- The BUPT-zone pre-pass of `simplify_gpx_improved` (lines 237–254):
buffer each maximal run of consecutive in-zone points and reduce it with
`_simplify_bupt_cluster`; out-of-zone points pass through untouched. -/
def buptPrePass (d : ℚ → ℚ → ℚ → ℚ → ℚ) (count : ℕ) :
    List GPoint → List GPoint → Option (List GPoint)
  | cluster, [] => simplify_bupt_cluster d count cluster
  | cluster, p :: rest =>
    if is_in_bupt_area p.lat p.lon then
      buptPrePass d count (cluster ++ [p]) rest
    else
      match simplify_bupt_cluster d count cluster with
      | none => none
      | some s =>
        match buptPrePass d count [] rest with
        | none => none
        | some tail => some (s ++ p :: tail)

/-- A distance function for concrete evaluations (its value is irrelevant to
the zone filter at `count = 2`, which never computes a distance). -/
def dZero : ℚ → ℚ → ℚ → ℚ → ℚ := fun _ _ _ _ => 0

/-- In-zone point with timestamp 5 (the run's first point, not its earliest). -/
def c1p0 : GPoint := ⟨0, 999 / 25, 29089 / 250, some 5⟩

/-- In-zone point with timestamp 0 (the run's chronologically earliest). -/
def c1p1 : GPoint := ⟨1, 999 / 25, 29089 / 250, some 0⟩

/-- In-zone point with timestamp 10 (the run's chronologically latest). -/
def c1p2 : GPoint := ⟨2, 999 / 25, 29089 / 250, some 10⟩

/-- C1 (code bug): on a maximal in-zone run of 3 timestamped points whose
first point is not the chronologically earliest, the zone filter with
`targetCount = 2` returns 3 points — the run's first point plus the earliest
and the latest — although its own comment (line 346) promises the result
never exceeds `targetCount`.  All three points lie inside the override zone,
and the pre-pass reproduces the same 3-point output. -/
theorem C1_zone_filter_exceeds_target :
    simplify_bupt_cluster dZero 2 [c1p0, c1p1, c1p2] =
      some [c1p1, c1p0, c1p2] ∧
    (∀ p ∈ [c1p0, c1p1, c1p2], is_in_bupt_area p.lat p.lon = true) ∧
    buptPrePass dZero 2 [] [c1p0, c1p1, c1p2] = some [c1p1, c1p0, c1p2] := by
  refine ⟨?_, ?_, ?_⟩
  · norm_num [simplify_bupt_cluster, buptStage1, buptStage2, buptStage3,
      buptPad, buptFinalSort, sortByTime, insertTimed, timeLE,
      dedupByPid, dedupByPidAux, c1p0, c1p1, c1p2, List.headI,
      List.getLast!, List.getLastD]
  · intro p hp
    rcases List.mem_cons.mp hp with h | hp
    · norm_num [h, c1p0, is_in_bupt_area, bupt_min_lat, bupt_max_lat,
        bupt_min_lon, bupt_max_lon]
    rcases List.mem_cons.mp hp with h | hp
    · norm_num [h, c1p1, is_in_bupt_area, bupt_min_lat, bupt_max_lat,
        bupt_min_lon, bupt_max_lon]
    rcases List.mem_cons.mp hp with h | hp
    · norm_num [h, c1p2, is_in_bupt_area, bupt_min_lat, bupt_max_lat,
        bupt_min_lon, bupt_max_lon]
    · exact absurd hp (List.not_mem_nil p)
  · norm_num [buptPrePass, simplify_bupt_cluster, buptStage1, buptStage2,
      buptStage3, buptPad, buptFinalSort, is_in_bupt_area,
      bupt_min_lat, bupt_max_lat, bupt_min_lon, bupt_max_lon, sortByTime,
      insertTimed, timeLE, dedupByPid, dedupByPidAux, c1p0, c1p1, c1p2,
      List.headI, List.getLast!, List.getLastD]

/-- `is_stay_area(area_points)`: fewer than 2 points is never a stay; with
timestamps on both endpoints the dwell time is compared against
`min_stay_time` (boundary inclusive); otherwise at least 10 points. -/
def is_stay_area (min_stay_time : ℚ) (area : List GPoint) : Bool :=
  if area.length < 2 then false
  else
    match area.head?.bind GPoint.time, (area.getLast?).bind GPoint.time with
    | some t0, some t1 => decide (min_stay_time ≤ t1 - t0)
    | _, _ => decide (10 ≤ area.length)

/-- C3: a candidate cluster is valid iff it has at least 2 points and —
when both endpoints carry timestamps — `last.time - first.time ≥ minStayTime`
(boundary included), otherwise iff it has at least 10 points; in particular a
length-1 cluster is never valid. -/
theorem C3_stay_validity (ms : ℚ) (area : List GPoint) :
    is_stay_area ms area = true ↔
      2 ≤ area.length ∧
      ((∃ t0 t1 : ℚ, area.head?.bind GPoint.time = some t0 ∧
          (area.getLast?).bind GPoint.time = some t1 ∧ ms ≤ t1 - t0) ∨
        ((area.head?.bind GPoint.time = none ∨
          (area.getLast?).bind GPoint.time = none) ∧ 10 ≤ area.length)) := by
  unfold is_stay_area
  by_cases h : area.length < 2
  · simp only [h, if_true]
    constructor
    · intro hf; exact absurd hf (by simp)
    · intro ⟨h2, _⟩; omega
  · have hl : 2 ≤ area.length := by omega
    simp only [h, if_false]
    cases e0 : area.head?.bind GPoint.time with
    | none =>
      cases e1 : (area.getLast?).bind GPoint.time with
      | none => simp [hl]
      | some t1 => simp [hl]
    | some t0 =>
      cases e1 : (area.getLast?).bind GPoint.time with
      | none => simp [hl]
      | some t1 => simp [hl]

/-- Loop body of the `max_stay_points == 1` branch of `simplify_stay_area`
(and of the `count >= 3` branch of `_simplify_bupt_cluster`, without the
membership side condition): keep the strictly closest point seen so far,
`none` standing for `float('inf')`. -/
def pickStep (d : ℚ → ℚ → ℚ → ℚ → ℚ) (c : ℚ × ℚ)
    (acc : Option ℚ × GPoint) (p : GPoint) : Option ℚ × GPoint :=
  let dist := d p.lat p.lon c.1 c.2
  if (match acc.1 with
      | none => true
      | some m => decide (dist < m)) = true then (some dist, p)
  else acc

/-- `simplify_stay_area(area_points)`, parametrised by the distance function
`d` and by `max_stay_points`. -/
def simplify_stay_area (d : ℚ → ℚ → ℚ → ℚ → ℚ) (max_stay_points : ℕ)
    (area : List GPoint) : List GPoint :=
  if area.length ≤ max_stay_points then area
  else if max_stay_points = 1 then
    let c := clusterCenter area
    [(area.foldl (pickStep d c) ((none : Option ℚ), area.headI)).2]
  else if max_stay_points = 2 then
    [area.headI, area.getLast!]
  else
    let simplified0 := [area.headI]
    let simplified1 :=
      if 2 < max_stay_points then
        simplified0 ++ [area.getD (area.length / 2) default]
      else simplified0
    dedupByPid (simplified1 ++ [area.getLast!])

/-- C6: on any stay area with at least 2 points, simplification with
`maxPoints = 2` returns exactly `[first, last]` in original order (for a
2-point area the `len <= max` early return yields the same list). -/
theorem C6_two_point_simplification (d : ℚ → ℚ → ℚ → ℚ → ℚ)
    (area : List GPoint) (h : 2 ≤ area.length) :
    simplify_stay_area d 2 area = [area.headI, area.getLast!] := by
  unfold simplify_stay_area
  by_cases hle : area.length ≤ 2
  · have h2 : area.length = 2 := le_antisymm hle h
    obtain ⟨a, b, rfl⟩ := List.length_eq_two.mp h2
    simp [List.headI, List.getLast!, List.getLastD]
  · simp [hle]

/-- Witness for C6 at a concrete 3-point area. -/
theorem C6_two_point_simplification_witness :
    2 ≤ ([⟨0, 0, 0, none⟩, ⟨1, 1, 1, none⟩, ⟨2, 2, 2, none⟩] :
      List GPoint).length ∧
    simplify_stay_area dZero 2
      [⟨0, 0, 0, none⟩, ⟨1, 1, 1, none⟩, ⟨2, 2, 2, none⟩] =
      [([⟨0, 0, 0, none⟩, ⟨1, 1, 1, none⟩, ⟨2, 2, 2, none⟩] :
          List GPoint).headI,
        ([⟨0, 0, 0, none⟩, ⟨1, 1, 1, none⟩, ⟨2, 2, 2, none⟩] :
          List GPoint).getLast!] :=
  ⟨by decide,
    C6_two_point_simplification dZero
      [⟨0, 0, 0, none⟩, ⟨1, 1, 1, none⟩, ⟨2, 2, 2, none⟩] (by decide)⟩

/-- `is_turning_point(point, all_points, point_index, window)` parametrised by
the bearing function `b` (the source calls `self.calculate_bearing`).  The
Python guard `point_index < 0` is handled by the caller
(`should_keep_moving_point` passes `-1` only through its `none` branch, which
returns `False` directly). -/
def is_turning_point (b : GPoint → GPoint → ℚ) (point : GPoint)
    (all_points : List GPoint) (point_index window : ℕ) : Bool :=
  if all_points.length ≤ point_index then false
  else if point_index < window ∨ all_points.length - window ≤ point_index then
    true
  else
    let prev_point := all_points.getD (point_index - window) default
    let next_point := all_points.getD (point_index + window) default
    let bearing1 := b prev_point point
    let bearing2 := b point next_point
    let angle_diff := |bearing1 - bearing2|
    let angle_diff2 :=
      if 180 < angle_diff then 360 - angle_diff else angle_diff
    decide (30 < angle_diff2)

/-- C7: a point of the (zone-filtered) sequence is a turning point iff its
index is within `w = 5` of either end of the sequence, or the absolute
bearing difference, wrapped into `[0,180]` by subtracting from 360 when it
exceeds 180, is strictly greater than 30 degrees. -/
theorem C7_turning_point_rule (b : GPoint → GPoint → ℚ)
    (pts : List GPoint) (i : ℕ) (hi : i < pts.length) :
    is_turning_point b (pts.getD i default) pts i 5 = true ↔
      (i < 5 ∨ pts.length - 5 ≤ i) ∨
      (30 <
        (let bearing1 := b (pts.getD (i - 5) default) (pts.getD i default)
         let bearing2 := b (pts.getD i default) (pts.getD (i + 5) default)
         let diff := |bearing1 - bearing2|
         if 180 < diff then 360 - diff else diff)) := by
  unfold is_turning_point
  have h1 : ¬ pts.length ≤ i := not_le.mpr hi
  simp only [h1, if_false]
  by_cases h2 : i < 5 ∨ pts.length - 5 ≤ i
  · simp [h2]
  · simp [h2]

/-- A bearing function for concrete evaluations. -/
def bZero : GPoint → GPoint → ℚ := fun _ _ => 0

/-- Witness for C7 at a 1-point sequence and index 0 (an end point). -/
theorem C7_turning_point_rule_witness :
    0 < ([⟨0, 0, 0, none⟩] : List GPoint).length ∧
    (is_turning_point bZero
        (([⟨0, 0, 0, none⟩] : List GPoint).getD 0 default)
        [⟨0, 0, 0, none⟩] 0 5 = true ↔
      (0 < 5 ∨ ([⟨0, 0, 0, none⟩] : List GPoint).length - 5 ≤ 0) ∨
      (30 <
        (let bearing1 := bZero (([⟨0, 0, 0, none⟩] : List GPoint).getD (0 - 5)
            default) (([⟨0, 0, 0, none⟩] : List GPoint).getD 0 default)
         let bearing2 := bZero (([⟨0, 0, 0, none⟩] : List GPoint).getD 0
            default) (([⟨0, 0, 0, none⟩] : List GPoint).getD (0 + 5) default)
         let diff := |bearing1 - bearing2|
         if 180 < diff then 360 - diff else diff))) :=
  ⟨by decide, C7_turning_point_rule bZero [⟨0, 0, 0, none⟩] 0 (by decide)⟩

/-- `should_keep_moving_point(point, all_points, simplified_points)`: keep the
first point unconditionally, then by distance from the last kept point, then
by the turning-point rule.  `next((i for i, p in enumerate(all_points) if p is
point), -1)` is the identity-based index search; the `-1` fallback makes
`is_turning_point` return `False`, which the `none` branch models. -/
def should_keep_moving_point (d : ℚ → ℚ → ℚ → ℚ → ℚ)
    (b : GPoint → GPoint → ℚ) (moving_threshold : ℚ) (point : GPoint)
    (all_points simplified_points : List GPoint) : Bool :=
  if simplified_points.length = 0 then true
  else
    let last_point := simplified_points.getLast!
    if moving_threshold ≤ d point.lat point.lon last_point.lat last_point.lon
    then true
    else
      match all_points.findIdx? (fun p => p.pid == point.pid) with
      | some idx => is_turning_point b point all_points idx 5
      | none => false

/-- Python slice `pts[a:b]`. -/
def slicePts (pts : List GPoint) (a b : ℕ) : List GPoint :=
  (pts.drop a).take (b - a)

/-- The excursion lookahead loop of `identify_stay_areas_improved` (lines
180–199): starting at `k` (initially `k = j`), scan while `k < len(points)`
and fewer than 10 points have been collected (`temp_moving = points[j:k]`, so
`len(temp_moving) = k - j`); return the index of the first examined point
within `stay_radius` of the frozen center `c`, or `none` if the excursion
fails.  Fuel-recursive; any fuel above `len(points) - k` is enough. -/
def lookaheadAux (pts : List GPoint) (d : ℚ → ℚ → ℚ → ℚ → ℚ) (r : ℚ)
    (c : ℚ × ℚ) (j : ℕ) : ℕ → ℕ → Option ℕ
  | 0, _ => none
  | fuel + 1, k =>
    if k < pts.length ∧ k - j < 10 then
      let temp_point := pts.getD k default
      if d temp_point.lat temp_point.lon c.1 c.2 ≤ r then some k
      else lookaheadAux pts d r c j fuel (k + 1)
    else none

/-- The candidate-growing loop of `identify_stay_areas_improved` (lines
163–199): `cand` is `potential_stay_area` and `j` the scan index; on each
step the incremental mean of the current candidate is recomputed, the next
point is appended when within `stay_radius`, otherwise the bounded excursion
lookahead either splices `points[j:k+1]` into the candidate and resumes at
`k + 1`, or the candidate is closed at `(cand, j)`. -/
def growAux (pts : List GPoint) (d : ℚ → ℚ → ℚ → ℚ → ℚ) (r : ℚ) :
    ℕ → List GPoint → ℕ → List GPoint × ℕ
  | 0, cand, j => (cand, j)
  | fuel + 1, cand, j =>
    if j < pts.length then
      let c := clusterCenter cand
      let next_point := pts.getD j default
      if d next_point.lat next_point.lon c.1 c.2 ≤ r then
        growAux pts d r fuel (cand ++ [next_point]) (j + 1)
      else
        match lookaheadAux pts d r c j (pts.length + 1) j with
        | some k =>
          growAux pts d r fuel (cand ++ slicePts pts j (k + 1)) (k + 1)
        | none => (cand, j)
    else (cand, j)

/-- `growAux` with always-sufficient fuel: the candidate-growing loop as run
by the source. -/
def growFrom (pts : List GPoint) (d : ℚ → ℚ → ℚ → ℚ → ℚ) (r : ℚ)
    (cand : List GPoint) (j : ℕ) : List GPoint × ℕ :=
  growAux pts d r (pts.length + 1) cand j

/-- The moving-segment walk for an invalid candidate (lines 207–218):
advance `i` while `i < len(points) - 1` and the adjacent pair `(i, i+1)` is
at least 10 m apart; return the final `i`. -/
def movingWalkAux (pts : List GPoint) (d : ℚ → ℚ → ℚ → ℚ → ℚ) :
    ℕ → ℕ → ℕ
  | 0, i => i
  | fuel + 1, i =>
    if i < pts.length - 1 then
      let current := pts.getD i default
      let next_pt := pts.getD (i + 1) default
      if d current.lat current.lon next_pt.lat next_pt.lon < 10 then i
      else movingWalkAux pts d fuel (i + 1)
    else i

/-- The outer loop of `identify_stay_areas_improved` (lines 157–222): grow a
candidate from `i`; if valid emit it as a stay area and resume at the
candidate's end, otherwise walk to the first sub-10 m adjacent pair, emit
`points[i:m+1]` as a moving segment when `m > i`, and resume at `m + 1`. -/
def identifyAux (pts : List GPoint) (d : ℚ → ℚ → ℚ → ℚ → ℚ) (cfg : Config) :
    ℕ → ℕ → List (List GPoint) × List (List GPoint)
  | 0, _ => ([], [])
  | fuel + 1, i =>
    if i < pts.length then
      let g := growFrom pts d cfg.stay_radius [pts.getD i default] (i + 1)
      if is_stay_area cfg.min_stay_time g.1 then
        let rest := identifyAux pts d cfg fuel g.2
        (g.1 :: rest.1, rest.2)
      else
        let m := movingWalkAux pts d (pts.length + 1) i
        let rest := identifyAux pts d cfg fuel (m + 1)
        (rest.1, (if i < m then [slicePts pts i (m + 1)] else []) ++ rest.2)
    else ([], [])

/-- `identifyAux` started at index `i` with always-sufficient fuel. -/
def identifyFrom (pts : List GPoint) (d : ℚ → ℚ → ℚ → ℚ → ℚ)
    (cfg : Config) (i : ℕ) : List (List GPoint) × List (List GPoint) :=
  identifyAux pts d cfg (pts.length + 1) i

/-- `identify_stay_areas_improved(points)`: the full single forward pass,
returning `(stay_areas, moving_segments)`. -/
def identify_stay_areas_improved (pts : List GPoint)
    (d : ℚ → ℚ → ℚ → ℚ → ℚ) (cfg : Config) :
    List (List GPoint) × List (List GPoint) :=
  identifyFrom pts d cfg 0

theorem lookaheadAux_some (pts : List GPoint) (d : ℚ → ℚ → ℚ → ℚ → ℚ)
    (r : ℚ) (c : ℚ × ℚ) (j : ℕ) :
    ∀ fuel k k', lookaheadAux pts d r c j fuel k = some k' →
      k ≤ k' ∧ k' < pts.length ∧ k' - j < 10 ∧
      d (pts.getD k' default).lat (pts.getD k' default).lon c.1 c.2 ≤ r ∧
      ∀ l, k ≤ l → l < k' →
        ¬ d (pts.getD l default).lat (pts.getD l default).lon c.1 c.2 ≤ r := by
  intro fuel
  induction fuel with
  | zero => intro k k' h; simp [lookaheadAux] at h
  | succ f ih =>
    intro k k' h
    simp only [lookaheadAux] at h
    by_cases hg : k < pts.length ∧ k - j < 10
    · rw [if_pos hg] at h
      by_cases hd : d (pts.getD k default).lat (pts.getD k default).lon
          c.1 c.2 ≤ r
      · rw [if_pos hd, Option.some.injEq] at h
        subst h
        exact ⟨le_refl _, hg.1, hg.2, hd,
          fun l hl1 hl2 => absurd (lt_of_le_of_lt hl1 hl2) (lt_irrefl k)⟩
      · rw [if_neg hd] at h
        obtain ⟨h1, h2, h3, h4, h5⟩ := ih (k + 1) k' h
        refine ⟨by omega, h2, h3, h4, ?_⟩
        intro l hl1 hl2
        rcases eq_or_lt_of_le hl1 with rfl | hlt
        · exact hd
        · exact h5 l (by omega) hl2
    · rw [if_neg hg] at h
      exact absurd h (by simp)

theorem lookaheadAux_eq_some_of (pts : List GPoint)
    (d : ℚ → ℚ → ℚ → ℚ → ℚ) (r : ℚ) (c : ℚ × ℚ) (j : ℕ) :
    ∀ fuel k k', k ≤ k' → k' - j < 10 → k' < pts.length →
      d (pts.getD k' default).lat (pts.getD k' default).lon c.1 c.2 ≤ r →
      (∀ l, k ≤ l → l < k' →
        ¬ d (pts.getD l default).lat (pts.getD l default).lon c.1 c.2 ≤ r) →
      k' - k < fuel →
      lookaheadAux pts d r c j fuel k = some k' := by
  intro fuel
  induction fuel with
  | zero => intro k k' _ _ _ _ _ hf; omega
  | succ f ih =>
    intro k k' h1 h2 h3 h4 h5 hf
    simp only [lookaheadAux]
    rw [if_pos (⟨by omega, by omega⟩ : k < pts.length ∧ k - j < 10)]
    rcases eq_or_lt_of_le h1 with rfl | hlt
    · rw [if_pos h4]
    · rw [if_neg (h5 k (le_refl k) hlt)]
      exact ih (k + 1) k' (by omega) h2 h3 h4
        (fun l hl1 hl2 => h5 l (by omega) hl2) (by omega)

theorem lookaheadAux_eq_none_of (pts : List GPoint)
    (d : ℚ → ℚ → ℚ → ℚ → ℚ) (r : ℚ) (c : ℚ × ℚ) (j : ℕ) :
    ∀ fuel k,
      (∀ l, k ≤ l → l < pts.length → l - j < 10 →
        ¬ d (pts.getD l default).lat (pts.getD l default).lon c.1 c.2 ≤ r) →
      lookaheadAux pts d r c j fuel k = none := by
  intro fuel
  induction fuel with
  | zero => intro k _; simp [lookaheadAux]
  | succ f ih =>
    intro k h
    simp only [lookaheadAux]
    by_cases hg : k < pts.length ∧ k - j < 10
    · rw [if_pos hg, if_neg (h k (le_refl k) hg.1 hg.2)]
      exact ih (k + 1) (fun l hl1 hl2 hl3 => h l (by omega) hl2 hl3)
    · rw [if_neg hg]

theorem growAux_snd_ge (pts : List GPoint) (d : ℚ → ℚ → ℚ → ℚ → ℚ)
    (r : ℚ) : ∀ fuel cand j, j ≤ (growAux pts d r fuel cand j).2 := by
  intro fuel
  induction fuel with
  | zero => intro cand j; simp [growAux]
  | succ f ih =>
    intro cand j
    simp only [growAux]
    by_cases hj : j < pts.length
    · rw [if_pos hj]
      by_cases hd : d (pts.getD j default).lat (pts.getD j default).lon
          (clusterCenter cand).1 (clusterCenter cand).2 ≤ r
      · rw [if_pos hd]
        exact le_trans (by omega) (ih (cand ++ [pts.getD j default]) (j + 1))
      · rw [if_neg hd]
        cases hk : lookaheadAux pts d r (clusterCenter cand) j
            (pts.length + 1) j with
        | none => exact le_refl j
        | some k =>
          obtain ⟨hb, _⟩ := lookaheadAux_some pts d r (clusterCenter cand) j
            (pts.length + 1) j k hk
          exact le_trans (by omega)
            (ih (cand ++ slicePts pts j (k + 1)) (k + 1))
    · rw [if_neg hj]

theorem growAux_snd_le (pts : List GPoint) (d : ℚ → ℚ → ℚ → ℚ → ℚ)
    (r : ℚ) : ∀ fuel cand j, j ≤ pts.length →
      (growAux pts d r fuel cand j).2 ≤ pts.length := by
  intro fuel
  induction fuel with
  | zero => intro cand j hj; simpa [growAux] using hj
  | succ f ih =>
    intro cand j hj
    simp only [growAux]
    by_cases hj' : j < pts.length
    · rw [if_pos hj']
      by_cases hd : d (pts.getD j default).lat (pts.getD j default).lon
          (clusterCenter cand).1 (clusterCenter cand).2 ≤ r
      · rw [if_pos hd]
        exact ih (cand ++ [pts.getD j default]) (j + 1) (by omega)
      · rw [if_neg hd]
        cases hk : lookaheadAux pts d r (clusterCenter cand) j
            (pts.length + 1) j with
        | none => exact hj
        | some k =>
          obtain ⟨_, hb2, _⟩ := lookaheadAux_some pts d r (clusterCenter cand)
            j (pts.length + 1) j k hk
          exact ih (cand ++ slicePts pts j (k + 1)) (k + 1) (by omega)
    · rw [if_neg hj']
      exact hj

theorem growAux_fuel (pts : List GPoint) (d : ℚ → ℚ → ℚ → ℚ → ℚ) (r : ℚ) :
    ∀ fuel fuel' cand j, pts.length - j < fuel → pts.length - j < fuel' →
      growAux pts d r fuel cand j = growAux pts d r fuel' cand j := by
  intro fuel
  induction fuel with
  | zero => intro fuel' cand j h _; omega
  | succ f ih =>
    intro fuel' cand j h h'
    cases fuel' with
    | zero => omega
    | succ f' =>
      simp only [growAux]
      by_cases hj : j < pts.length
      · rw [if_pos hj, if_pos hj]
        by_cases hd : d (pts.getD j default).lat (pts.getD j default).lon
            (clusterCenter cand).1 (clusterCenter cand).2 ≤ r
        · rw [if_pos hd, if_pos hd]
          exact ih f' (cand ++ [pts.getD j default]) (j + 1)
            (by omega) (by omega)
        · rw [if_neg hd, if_neg hd]
          cases hk : lookaheadAux pts d r (clusterCenter cand) j
              (pts.length + 1) j with
          | none => rfl
          | some k =>
            obtain ⟨hb1, hb2, _⟩ := lookaheadAux_some pts d r
              (clusterCenter cand) j (pts.length + 1) j k hk
            exact ih f' (cand ++ slicePts pts j (k + 1)) (k + 1)
              (by omega) (by omega)
      · rw [if_neg hj, if_neg hj]

theorem movingWalkAux_ge (pts : List GPoint) (d : ℚ → ℚ → ℚ → ℚ → ℚ) :
    ∀ fuel i, i ≤ movingWalkAux pts d fuel i := by
  intro fuel
  induction fuel with
  | zero => intro i; simp [movingWalkAux]
  | succ f ih =>
    intro i
    simp only [movingWalkAux]
    by_cases hg : i < pts.length - 1
    · rw [if_pos hg]
      by_cases hd : d (pts.getD i default).lat (pts.getD i default).lon
          (pts.getD (i + 1) default).lat (pts.getD (i + 1) default).lon < 10
      · rw [if_pos hd]
      · rw [if_neg hd]
        exact le_trans (by omega) (ih (i + 1))
    · rw [if_neg hg]

theorem movingWalkAux_le (pts : List GPoint) (d : ℚ → ℚ → ℚ → ℚ → ℚ) :
    ∀ fuel i, movingWalkAux pts d fuel i ≤ max i (pts.length - 1) := by
  intro fuel
  induction fuel with
  | zero => intro i; simp [movingWalkAux]
  | succ f ih =>
    intro i
    simp only [movingWalkAux]
    by_cases hg : i < pts.length - 1
    · rw [if_pos hg]
      by_cases hd : d (pts.getD i default).lat (pts.getD i default).lon
          (pts.getD (i + 1) default).lat (pts.getD (i + 1) default).lon < 10
      · rw [if_pos hd]
        exact le_max_left i _
      · rw [if_neg hd]
        exact le_trans (ih (i + 1)) (by omega)
    · rw [if_neg hg]
      exact le_max_left i _

theorem movingWalkAux_found (pts : List GPoint) (d : ℚ → ℚ → ℚ → ℚ → ℚ) :
    ∀ fuel i m, i ≤ m → m - i < fuel → m < pts.length - 1 →
      d (pts.getD m default).lat (pts.getD m default).lon
        (pts.getD (m + 1) default).lat (pts.getD (m + 1) default).lon < 10 →
      (∀ l, i ≤ l → l < m →
        ¬ d (pts.getD l default).lat (pts.getD l default).lon
          (pts.getD (l + 1) default).lat (pts.getD (l + 1) default).lon
            < 10) →
      movingWalkAux pts d fuel i = m := by
  intro fuel
  induction fuel with
  | zero => intro i m _ hf _ _ _; omega
  | succ f ih =>
    intro i m h1 hf h2 h3 h4
    simp only [movingWalkAux]
    rcases eq_or_lt_of_le h1 with rfl | hlt
    · rw [if_pos h2, if_pos h3]
    · rw [if_pos (by omega : i < pts.length - 1),
        if_neg (h4 i (le_refl i) hlt)]
      exact ih (i + 1) m (by omega) (by omega) h2 h3
        (fun l hl1 hl2 => h4 l (by omega) hl2)

theorem identifyAux_fuel (pts : List GPoint) (d : ℚ → ℚ → ℚ → ℚ → ℚ)
    (cfg : Config) :
    ∀ fuel fuel' i, pts.length - i < fuel → pts.length - i < fuel' →
      identifyAux pts d cfg fuel i = identifyAux pts d cfg fuel' i := by
  intro fuel
  induction fuel with
  | zero => intro fuel' i h _; omega
  | succ f ih =>
    intro fuel' i h h'
    cases fuel' with
    | zero => omega
    | succ f' =>
      simp only [identifyAux]
      by_cases hi : i < pts.length
      · rw [if_pos hi, if_pos hi]
        have hge := growAux_snd_ge pts d cfg.stay_radius (pts.length + 1)
          [pts.getD i default] (i + 1)
        by_cases hv : is_stay_area cfg.min_stay_time
            (growFrom pts d cfg.stay_radius [pts.getD i default] (i + 1)).1 =
              true
        · rw [if_pos hv, if_pos hv,
            ih f' (growFrom pts d cfg.stay_radius [pts.getD i default]
              (i + 1)).2 (by simp only [growFrom]; omega)
              (by simp only [growFrom]; omega)]
        · rw [if_neg hv, if_neg hv]
          have hmge := movingWalkAux_ge pts d (pts.length + 1) i
          rw [ih f' (movingWalkAux pts d (pts.length + 1) i + 1)
            (by omega) (by omega)]
      · rw [if_neg hi, if_neg hi]

/-- C4: when the next point `j` is farther than `stayRadius` from the
candidate's current incremental mean, the excursion examines exactly the
indices `k` with `j ≤ k < j + 10` and `k < len(points)` (at most 10 points,
the first being the triggering point itself) against the mean frozen at
excursion start; if `k` is the first examined point within `stayRadius`, the
whole excursion run `points[j:k]` plus the returning point `points[k]` is
appended to the candidate and scanning resumes at `k + 1`; if no examined
point returns, the candidate is closed as is, without any excursion point. -/
theorem C4_excursion_lookahead (pts : List GPoint)
    (d : ℚ → ℚ → ℚ → ℚ → ℚ) (r : ℚ) (cand : List GPoint) (j : ℕ)
    (hj : j < pts.length)
    (hfar : ¬ d (pts.getD j default).lat (pts.getD j default).lon
      (clusterCenter cand).1 (clusterCenter cand).2 ≤ r) :
    (∀ k, j ≤ k → k < j + 10 → k < pts.length →
      d (pts.getD k default).lat (pts.getD k default).lon
        (clusterCenter cand).1 (clusterCenter cand).2 ≤ r →
      (∀ l, j ≤ l → l < k →
        ¬ d (pts.getD l default).lat (pts.getD l default).lon
          (clusterCenter cand).1 (clusterCenter cand).2 ≤ r) →
      growFrom pts d r cand j =
        growFrom pts d r (cand ++ slicePts pts j (k + 1)) (k + 1)) ∧
    ((∀ k, j ≤ k → k < j + 10 → k < pts.length →
      ¬ d (pts.getD k default).lat (pts.getD k default).lon
        (clusterCenter cand).1 (clusterCenter cand).2 ≤ r) →
      growFrom pts d r cand j = (cand, j)) := by
  constructor
  · intro k hk1 hk2 hk3 hk4 hk5
    show growAux pts d r (pts.length + 1) cand j = _
    simp only [growAux]
    rw [if_pos hj, if_neg hfar,
      lookaheadAux_eq_some_of pts d r (clusterCenter cand) j
        (pts.length + 1) j k hk1 (by omega) hk3 hk4 hk5 (by omega)]
    exact growAux_fuel pts d r pts.length (pts.length + 1)
      (cand ++ slicePts pts j (k + 1)) (k + 1) (by omega) (by omega)
  · intro hnone
    show growAux pts d r (pts.length + 1) cand j = (cand, j)
    simp only [growAux]
    rw [if_pos hj, if_neg hfar,
      lookaheadAux_eq_none_of pts d r (clusterCenter cand) j
        (pts.length + 1) j
        (fun l hl1 hl2 hl3 => hnone l hl1 (by omega) hl2)]

/-- Concrete points and distance functions for witnesses: integer coordinates
and center-ignoring distance functions keep kernel evaluation available. -/
def u0 : GPoint := ⟨20, 0, 0, none⟩

/-- Second two-point-run witness point. -/
def u1 : GPoint := ⟨21, 1, 0, none⟩

/-- Constant distance 1000 m: every pair is far apart. -/
def dFar : ℚ → ℚ → ℚ → ℚ → ℚ := fun _ _ _ _ => 1000

/-- A concrete configuration: `stay_radius = 100`, `min_stay_time = 600`,
`max_stay_points = 2`, `moving_threshold = 200`, `bupt_count = 2`. -/
def cfgT : Config := ⟨100, 600, 2, 200, 2⟩

/-- Witness point with latitude 0. -/
def w0 : GPoint := ⟨30, 0, 0, none⟩

/-- Witness point with latitude 1. -/
def w1 : GPoint := ⟨31, 1, 0, none⟩

/-- Witness point with latitude 2. -/
def w2 : GPoint := ⟨32, 2, 0, none⟩

/-- Distance keyed on the first point's latitude: near (0 m) exactly for
latitude 2; ignores the second position, so evaluation never forces the
incremental mean. -/
def dW : ℚ → ℚ → ℚ → ℚ → ℚ := fun la _ _ _ => if la = 2 then 0 else 1000

/-- Distance keyed on the first point's latitude: 5 m exactly for
latitude 1, else 1000 m. -/
def dC2 : ℚ → ℚ → ℚ → ℚ → ℚ := fun la _ _ _ => if la = 1 then 5 else 1000

/-- Witness for C4 on `[w0, w1, w2]`: at `j = 1` the next point is far from
the candidate mean, the excursion returns at `k = 2`, and the candidate is
extended by `points[1:3]` with scanning resuming at 3. -/
theorem C4_excursion_lookahead_witness :
    (1 < ([w0, w1, w2] : List GPoint).length ∧
      ¬ dW (([w0, w1, w2] : List GPoint).getD 1 default).lat
        (([w0, w1, w2] : List GPoint).getD 1 default).lon
        (clusterCenter [w0]).1 (clusterCenter [w0]).2 ≤ 100) ∧
    growFrom [w0, w1, w2] dW 100 [w0] 1 =
      growFrom [w0, w1, w2] dW 100 ([w0] ++ slicePts [w0, w1, w2] 1 3) 3 :=
  ⟨⟨by decide, by decide⟩,
    (C4_excursion_lookahead [w0, w1, w2] dW 100 [w0] 1 (by decide)
        (by decide)).1 2 (by decide) (by decide) (by decide) (by decide)
      (fun l hl1 hl2 => by
        have hl : l = 1 := by omega
        subst hl
        decide)⟩

/-- C2 (amended): when a closed candidate starting at `i` is classified
invalid, the walk stops at the first index `m ≥ i` whose adjacent pair is
closer than 10 m; if `m > i`, `points[i:m+1]` — everything from the
candidate's start up to and including that pair's first point — is emitted
as one moving segment, while if the very first adjacent pair (at `i` itself)
is already closer than 10 m no segment is emitted at all; in both cases
segmentation resumes at `m + 1`, the pair's second point. -/
theorem C2_amended_invalid_candidate (pts : List GPoint)
    (d : ℚ → ℚ → ℚ → ℚ → ℚ) (cfg : Config) (i m : ℕ)
    (hi : i < pts.length)
    (hinv : ¬ is_stay_area cfg.min_stay_time
      (growFrom pts d cfg.stay_radius [pts.getD i default] (i + 1)).1 =
        true)
    (him : i ≤ m) (hm : m < pts.length - 1)
    (hfound : d (pts.getD m default).lat (pts.getD m default).lon
      (pts.getD (m + 1) default).lat (pts.getD (m + 1) default).lon < 10)
    (hmin : ∀ l, i ≤ l → l < m →
      ¬ d (pts.getD l default).lat (pts.getD l default).lon
        (pts.getD (l + 1) default).lat (pts.getD (l + 1) default).lon
          < 10) :
    identifyFrom pts d cfg i =
      ((identifyFrom pts d cfg (m + 1)).1,
        (if i < m then [slicePts pts i (m + 1)] else []) ++
          (identifyFrom pts d cfg (m + 1)).2) := by
  show identifyAux pts d cfg (pts.length + 1) i = _
  simp only [identifyAux]
  rw [if_pos hi, if_neg hinv,
    movingWalkAux_found pts d (pts.length + 1) i m him (by omega) hm
      hfound hmin,
    identifyAux_fuel pts d cfg pts.length (pts.length + 1) (m + 1)
      (by omega) (by omega)]
  rfl

/-- Witness for C2's amended statement on `[w0, w1, w2]` with `dC2`: the
candidate `[w0, w1]` from index 0 is invalid, the first sub-10 m pair is at
`m = 1 > 0`, and `points[0:2]` is emitted as one segment with resumption
at 2. -/
theorem C2_amended_invalid_candidate_witness :
    (¬ is_stay_area cfgT.min_stay_time
        (growFrom [w0, w1, w2] dC2 cfgT.stay_radius
          (([w0, w1, w2] : List GPoint).getD 0 default :: []) (0 + 1)).1 =
          true ∧
      dC2 (([w0, w1, w2] : List GPoint).getD 1 default).lat
        (([w0, w1, w2] : List GPoint).getD 1 default).lon
        (([w0, w1, w2] : List GPoint).getD 2 default).lat
        (([w0, w1, w2] : List GPoint).getD 2 default).lon < 10) ∧
    identifyFrom [w0, w1, w2] dC2 cfgT 0 =
      ((identifyFrom [w0, w1, w2] dC2 cfgT 2).1,
        (if 0 < 1 then [slicePts [w0, w1, w2] 0 2] else []) ++
          (identifyFrom [w0, w1, w2] dC2 cfgT 2).2) :=
  ⟨⟨by decide, by decide⟩,
    C2_amended_invalid_candidate [w0, w1, w2] dC2 cfgT 0 1 (by decide)
      (by decide) (by decide) (by decide) (by decide)
      (fun l hl1 hl2 => by
        have hl : l = 0 := by omega
        subst hl
        decide)⟩

/-- C2 counterexample to the claim as stated: on `[u0, u1]` with the
all-zero distance the candidate `[u0, u1]` from index 0 is invalid and its
very first adjacent pair is already closer than 10 m, yet the segmenter
emits no moving segment at all — in particular no segment containing the
candidate's start `u0` — instead of the claimed `[points[0]]`. -/
theorem C2_counterexample_first_pair_close :
    ¬ is_stay_area cfgT.min_stay_time
        (growFrom [u0, u1] dZero cfgT.stay_radius [u0] 1).1 = true ∧
    dZero u0.lat u0.lon u1.lat u1.lon < 10 ∧
    identify_stay_areas_improved [u0, u1] dZero cfgT = ([], []) :=
  ⟨by decide, by decide, by decide⟩

theorem slicePts_length (pts : List GPoint) (a b : ℕ) :
    (slicePts pts a b).length = min (b - a) (pts.length - a) := by
  simp [slicePts]

theorem identifyAux_segments_length (pts : List GPoint)
    (d : ℚ → ℚ → ℚ → ℚ → ℚ) (cfg : Config) :
    ∀ fuel i seg, seg ∈ (identifyAux pts d cfg fuel i).2 →
      2 ≤ seg.length := by
  intro fuel
  induction fuel with
  | zero => intro i seg h; simp [identifyAux] at h
  | succ f ih =>
    intro i seg h
    simp only [identifyAux] at h
    by_cases hi : i < pts.length
    · rw [if_pos hi] at h
      by_cases hv : is_stay_area cfg.min_stay_time
          (growFrom pts d cfg.stay_radius [pts.getD i default] (i + 1)).1 =
            true
      · rw [if_pos hv] at h
        exact ih _ seg h
      · rw [if_neg hv] at h
        rcases List.mem_append.mp h with h1 | h2
        · by_cases him : i < movingWalkAux pts d (pts.length + 1) i
          · rw [if_pos him] at h1
            have hseg := List.mem_singleton.mp h1
            subst hseg
            have hle := movingWalkAux_le pts d (pts.length + 1) i
            rw [slicePts_length]
            omega
          · rw [if_neg him] at h1
            exact absurd h1 (List.not_mem_nil seg)
        · exact ih _ seg h2
    · rw [if_neg hi] at h
      exact absurd h (by simp)

/-- C10: every moving segment the segmenter emits has at least 2 points —
when the walk for an invalid candidate stops at the candidate's start (the
first adjacent pair already being closer than 10 m), no segment is emitted
for that index, so no length-1 segment is ever produced. -/
theorem C10_moving_segments_length (pts : List GPoint)
    (d : ℚ → ℚ → ℚ → ℚ → ℚ) (cfg : Config) :
    ∀ seg ∈ (identify_stay_areas_improved pts d cfg).2, 2 ≤ seg.length :=
  fun seg h => identifyAux_segments_length pts d cfg (pts.length + 1) 0 seg h

/-- Witness for C10: on `[u0, u1]` with every distance 1000 m the segmenter
emits the single moving segment `[u0, u1]`, of length 2. -/
theorem C10_moving_segments_length_witness :
    [u0, u1] ∈ (identify_stay_areas_improved [u0, u1] dFar cfgT).2 ∧
    2 ≤ ([u0, u1] : List GPoint).length :=
  ⟨by decide,
    C10_moving_segments_length [u0, u1] dFar cfgT [u0, u1] (by decide)⟩

theorem headI_mem {l : List GPoint} (h : l ≠ []) : l.headI ∈ l := by
  cases l with
  | nil => exact absurd rfl h
  | cons a t => exact List.mem_cons_self a t

theorem getLast!_mem {l : List GPoint} (h : l ≠ []) : l.getLast! ∈ l := by
  cases l with
  | nil => exact absurd rfl h
  | cons a t =>
    have he : (a :: t).getLast! = (a :: t).getLast (by simp) := by
      simp [List.getLast!]
    rw [he]
    exact List.getLast_mem _

theorem slicePts_append_getD (pts : List GPoint) (i j : ℕ) (hij : i ≤ j)
    (hj : j < pts.length) :
    slicePts pts i j ++ [pts.getD j default] = slicePts pts i (j + 1) := by
  have h1 : j + 1 - i = (j - i) + 1 := by omega
  have h2 : (pts.drop i)[j - i]? = some pts[j] := by
    rw [List.getElem?_drop]
    have hij2 : i + (j - i) = j := by omega
    rw [hij2]
    exact List.getElem?_eq_getElem hj
  simp only [slicePts, h1, List.take_succ, h2, Option.toList_some,
    List.getD_eq_getElem pts default hj]

theorem slicePts_append_slicePts (pts : List GPoint) (i j k : ℕ)
    (h1 : i ≤ j) (h2 : j ≤ k) :
    slicePts pts i j ++ slicePts pts j k = slicePts pts i k := by
  have hd : pts.drop j = (pts.drop i).drop (j - i) := by
    rw [List.drop_drop]
    congr 1
    omega
  have hk : k - i = (j - i) + (k - j) := by omega
  simp only [slicePts, hd, hk, List.take_add]

theorem slicePts_append_drop (pts : List GPoint) (i j : ℕ) (h : i ≤ j) :
    slicePts pts i j ++ pts.drop j = pts.drop i := by
  have hd : pts.drop j = (pts.drop i).drop (j - i) := by
    rw [List.drop_drop]
    congr 1
    omega
  simp only [slicePts, hd]
  exact List.take_append_drop (j - i) (pts.drop i)

theorem slicePts_singleton (pts : List GPoint) (i : ℕ)
    (hi : i < pts.length) :
    slicePts pts i (i + 1) = [pts.getD i default] := by
  have h1 : i + 1 - i = 1 := by omega
  simp only [slicePts, h1, List.drop_eq_getElem_cons hi, List.take_succ_cons,
    List.take_zero, List.getD_eq_getElem pts default hi]

theorem drop_sublist_drop (pts : List GPoint) (i j : ℕ) (h : i ≤ j) :
    (pts.drop j).Sublist (pts.drop i) := by
  have hd : pts.drop j = (pts.drop i).drop (j - i) := by
    rw [List.drop_drop]
    congr 1
    omega
  rw [hd]
  exact List.drop_sublist (j - i) (pts.drop i)

theorem growAux_slice (pts : List GPoint) (d : ℚ → ℚ → ℚ → ℚ → ℚ)
    (r : ℚ) :
    ∀ fuel i j, i ≤ j →
      (growAux pts d r fuel (slicePts pts i j) j).1 =
        slicePts pts i (growAux pts d r fuel (slicePts pts i j) j).2 := by
  intro fuel
  induction fuel with
  | zero => intro i j hij; simp [growAux]
  | succ f ih =>
    intro i j hij
    simp only [growAux]
    by_cases hj : j < pts.length
    · rw [if_pos hj]
      by_cases hd : d (pts.getD j default).lat (pts.getD j default).lon
          (clusterCenter (slicePts pts i j)).1
          (clusterCenter (slicePts pts i j)).2 ≤ r
      · rw [if_pos hd, slicePts_append_getD pts i j hij hj]
        exact ih i (j + 1) (by omega)
      · rw [if_neg hd]
        cases hk : lookaheadAux pts d r (clusterCenter (slicePts pts i j)) j
            (pts.length + 1) j with
        | none => rfl
        | some k =>
          obtain ⟨hb1, hb2, _⟩ := lookaheadAux_some pts d r
            (clusterCenter (slicePts pts i j)) j (pts.length + 1) j k hk
          have hs := slicePts_append_slicePts pts i j (k + 1) hij (by omega)
          have hih := ih i (k + 1) (by omega)
          rw [← hs] at hih
          exact hih
    · rw [if_neg hj]

theorem identifyAux_areas_flatten_sublist (pts : List GPoint)
    (d : ℚ → ℚ → ℚ → ℚ → ℚ) (cfg : Config) :
    ∀ fuel i, ((identifyAux pts d cfg fuel i).1.flatten).Sublist
      (pts.drop i) := by
  intro fuel
  induction fuel with
  | zero => intro i; simp [identifyAux]
  | succ f ih =>
    intro i
    simp only [identifyAux]
    by_cases hi : i < pts.length
    · rw [if_pos hi]
      by_cases hv : is_stay_area cfg.min_stay_time
          (growFrom pts d cfg.stay_radius [pts.getD i default] (i + 1)).1 =
            true
      · rw [if_pos hv]
        show (((growFrom pts d cfg.stay_radius [pts.getD i default]
            (i + 1)).1 ::
            (identifyAux pts d cfg f (growFrom pts d cfg.stay_radius
              [pts.getD i default] (i + 1)).2).1).flatten).Sublist
          (pts.drop i)
        rw [List.flatten_cons]
        have hstart : [pts.getD i default] = slicePts pts i (i + 1) :=
          (slicePts_singleton pts i hi).symm
        have hge := growAux_snd_ge pts d cfg.stay_radius (pts.length + 1)
          [pts.getD i default] (i + 1)
        have hsl : (growFrom pts d cfg.stay_radius [pts.getD i default]
            (i + 1)).1 = slicePts pts i
              (growFrom pts d cfg.stay_radius [pts.getD i default]
                (i + 1)).2 := by
          rw [growFrom, hstart]
          exact growAux_slice pts d cfg.stay_radius (pts.length + 1) i
            (i + 1) (by omega)
        rw [hsl]
        have h1 : (slicePts pts i (growFrom pts d cfg.stay_radius
            [pts.getD i default] (i + 1)).2 ++
            (identifyAux pts d cfg f (growFrom pts d cfg.stay_radius
              [pts.getD i default] (i + 1)).2).1.flatten).Sublist
            (slicePts pts i (growFrom pts d cfg.stay_radius
              [pts.getD i default] (i + 1)).2 ++
              pts.drop (growFrom pts d cfg.stay_radius
                [pts.getD i default] (i + 1)).2) :=
          (List.Sublist.refl _).append (ih _)
        have h2 : slicePts pts i (growFrom pts d cfg.stay_radius
            [pts.getD i default] (i + 1)).2 ++
            pts.drop (growFrom pts d cfg.stay_radius
              [pts.getD i default] (i + 1)).2 = pts.drop i :=
          slicePts_append_drop pts i _
            (by simp only [growFrom]; omega)
        exact h2 ▸ h1
      · rw [if_neg hv]
        show ((identifyAux pts d cfg f
            (movingWalkAux pts d (pts.length + 1) i + 1)).1.flatten).Sublist
          (pts.drop i)
        have hmge := movingWalkAux_ge pts d (pts.length + 1) i
        exact (ih _).trans (drop_sublist_drop pts i _ (by omega))
    · rw [if_neg hi]
      show (([] : List (List GPoint)).flatten).Sublist (pts.drop i)
      simp

theorem is_stay_area_length {ms : ℚ} {area : List GPoint}
    (h : is_stay_area ms area = true) : 2 ≤ area.length := by
  by_contra hlt
  rw [is_stay_area, if_pos (by omega)] at h
  exact Bool.false_ne_true h

theorem identifyAux_areas_valid (pts : List GPoint)
    (d : ℚ → ℚ → ℚ → ℚ → ℚ) (cfg : Config) :
    ∀ fuel i area, area ∈ (identifyAux pts d cfg fuel i).1 →
      is_stay_area cfg.min_stay_time area = true := by
  intro fuel
  induction fuel with
  | zero => intro i area h; simp [identifyAux] at h
  | succ f ih =>
    intro i area h
    simp only [identifyAux] at h
    by_cases hi : i < pts.length
    · rw [if_pos hi] at h
      by_cases hv : is_stay_area cfg.min_stay_time
          (growFrom pts d cfg.stay_radius [pts.getD i default] (i + 1)).1 =
            true
      · rw [if_pos hv] at h
        rcases List.mem_cons.mp h with rfl | h2
        · exact hv
        · exact ih _ area h2
      · rw [if_neg hv] at h
        exact ih _ area h
    · rw [if_neg hi] at h
      exact absurd h (by simp)

theorem pickStep_snd (d : ℚ → ℚ → ℚ → ℚ → ℚ) (c : ℚ × ℚ)
    (acc : Option ℚ × GPoint) (p : GPoint) :
    (pickStep d c acc p).2 = p ∨ (pickStep d c acc p).2 = acc.2 := by
  unfold pickStep
  by_cases h : (match acc.1 with
      | none => true
      | some m => decide (d p.lat p.lon c.1 c.2 < m)) = true
  · rw [if_pos h]
    exact Or.inl rfl
  · rw [if_neg h]
    exact Or.inr rfl

theorem pickStep_foldl_mem (d : ℚ → ℚ → ℚ → ℚ → ℚ) (c : ℚ × ℚ) :
    ∀ (l : List GPoint) (acc : Option ℚ × GPoint),
      (l.foldl (pickStep d c) acc).2 = acc.2 ∨
        (l.foldl (pickStep d c) acc).2 ∈ l := by
  intro l
  induction l with
  | nil => intro acc; exact Or.inl rfl
  | cons p rest ih =>
    intro acc
    rw [List.foldl_cons]
    rcases ih (pickStep d c acc p) with h | h
    · rcases pickStep_snd d c acc p with h2 | h2
      · exact Or.inr (by rw [h, h2]; exact List.mem_cons_self p rest)
      · exact Or.inl (by rw [h, h2])
    · exact Or.inr (List.mem_cons_of_mem p h)

theorem getD_mem_of_lt {l : List GPoint} {n : ℕ} (h : n < l.length) :
    l.getD n default ∈ l := by
  rw [List.getD_eq_getElem l default h]
  exact List.getElem_mem h

theorem simplify_stay_area_subset (d : ℚ → ℚ → ℚ → ℚ → ℚ) (m : ℕ)
    (area : List GPoint) (h : area ≠ []) :
    ∀ x ∈ simplify_stay_area d m area, x ∈ area := by
  intro x hx
  unfold simplify_stay_area at hx
  by_cases h1 : area.length ≤ m
  · rw [if_pos h1] at hx
    exact hx
  · rw [if_neg h1] at hx
    by_cases h2 : m = 1
    · rw [if_pos h2] at hx
      rcases List.mem_singleton.mp hx with rfl
      rcases pickStep_foldl_mem d (clusterCenter area) area
          ((none : Option ℚ), area.headI) with hin | hin
      · rw [hin]
        exact headI_mem h
      · exact hin
    · rw [if_neg h2] at hx
      by_cases h3 : m = 2
      · rw [if_pos h3] at hx
        rcases List.mem_cons.mp hx with rfl | hx2
        · exact headI_mem h
        · rcases List.mem_singleton.mp hx2 with rfl
          exact getLast!_mem h
      · rw [if_neg h3] at hx
        have hx2 := (dedupByPid_sublist _).subset hx
        rcases List.mem_append.mp hx2 with hx3 | hx3
        · by_cases h4 : 2 < m
          · rw [if_pos h4] at hx3
            rcases List.mem_append.mp hx3 with hx4 | hx4
            · rcases List.mem_singleton.mp hx4 with rfl
              exact headI_mem h
            · rcases List.mem_singleton.mp hx4 with rfl
              exact getD_mem_of_lt (by
                have : area.length ≠ 0 := fun he => h (List.eq_nil_of_length_eq_zero he)
                omega)
          · rw [if_neg h4] at hx3
            rcases List.mem_singleton.mp hx3 with rfl
            exact headI_mem h
        · rcases List.mem_singleton.mp hx3 with rfl
          exact getLast!_mem h

theorem headI_pid_ne_getLast!_pid {area : List GPoint}
    (hn : (area.map GPoint.pid).Nodup) (hl : 2 ≤ area.length) :
    area.headI.pid ≠ area.getLast!.pid := by
  cases area with
  | nil => simp at hl
  | cons a t =>
    cases t with
    | nil => simp at hl
    | cons b t2 =>
      have hne : b :: t2 ≠ [] := by simp
      have he : (a :: b :: t2).getLast! =
          (a :: b :: t2).getLast (by simp) := by
        simp [List.getLast!]
      have he2 : (a :: b :: t2).getLast (by simp) =
          (b :: t2).getLast hne := List.getLast_cons hne
      have hmem : (a :: b :: t2).getLast! ∈ b :: t2 := by
        rw [he, he2]
        exact List.getLast_mem hne
      simp only [List.map_cons, List.nodup_cons] at hn
      intro hcontra
      apply hn.1
      have : (a :: b :: t2).getLast!.pid ∈
          (b :: t2).map GPoint.pid := List.mem_map_of_mem GPoint.pid hmem
      simp only [List.headI] at hcontra
      rw [hcontra]
      simpa using this

theorem simplify_stay_area_pid_nodup (d : ℚ → ℚ → ℚ → ℚ → ℚ) (m : ℕ)
    (area : List GPoint) (hn : (area.map GPoint.pid).Nodup)
    (hl : 2 ≤ area.length) :
    ((simplify_stay_area d m area).map GPoint.pid).Nodup := by
  unfold simplify_stay_area
  by_cases h1 : area.length ≤ m
  · rw [if_pos h1]
    exact hn
  · rw [if_neg h1]
    by_cases h2 : m = 1
    · rw [if_pos h2]
      simp
    · rw [if_neg h2]
      by_cases h3 : m = 2
      · rw [if_pos h3]
        have := headI_pid_ne_getLast!_pid hn (by omega)
        simp [this]
      · rw [if_neg h3]
        exact dedupByPid_pid_nodup _

/-- `stay_points_set` (lines 268–271): the identities of all points of all
stay areas. -/
def stay_pids (stay_areas : List (List GPoint)) : List ℕ :=
  stay_areas.flatten.map GPoint.pid

/-- The inner `for area in stay_areas` search (lines 279–287): the first
area that contains the point (dict equality, which is identity here) and
whose identifier `id(area[0])` has not been processed yet. -/
def findAreaFor (point : GPoint) (processed : List ℕ) :
    List (List GPoint) → Option (List GPoint)
  | [] => none
  | area :: rest =>
    if point ∈ area ∧ area.headI.pid ∉ processed then some area
    else findAreaFor point processed rest

/-- The per-point routing loop of `simplify_gpx_improved` (lines 276–291):
a point of some stay area triggers the one-time simplification of the first
unprocessed area containing it; any other point goes through
`should_keep_moving_point`. -/
def routeLoop (d : ℚ → ℚ → ℚ → ℚ → ℚ) (b : GPoint → GPoint → ℚ)
    (cfg : Config) (all_points : List GPoint)
    (stay_areas : List (List GPoint)) :
    List GPoint → List ℕ → List GPoint → List GPoint
  | [], _, acc => acc
  | p :: rest, processed, acc =>
    if p.pid ∈ stay_pids stay_areas then
      match findAreaFor p processed stay_areas with
      | some area =>
        routeLoop d b cfg all_points stay_areas rest
          (processed ++ [area.headI.pid])
          (acc ++ simplify_stay_area d cfg.max_stay_points area)
      | none => routeLoop d b cfg all_points stay_areas rest processed acc
    else
      if should_keep_moving_point d b cfg.moving_threshold p all_points acc
      then routeLoop d b cfg all_points stay_areas rest processed (acc ++ [p])
      else routeLoop d b cfg all_points stay_areas rest processed acc

/-- The core pipeline of `simplify_gpx_improved` (lines 236–295): BUPT zone
pre-pass, stay segmentation, per-point routing, and the final chronological
sort applied when the first retained point has a timestamp.  `none` models
the `TypeError` propagating out of the zone filter's timestamp sort.  (On
empty input the Python function returns early without writing a file; the
core transformation of `[]` is `[]` through every stage, which this
definition makes explicit.) -/
def simplify_gpx_improved_core (d : ℚ → ℚ → ℚ → ℚ → ℚ)
    (b : GPoint → GPoint → ℚ) (cfg : Config) (points : List GPoint) :
    Option (List GPoint) :=
  match buptPrePass d cfg.bupt_count [] points with
  | none => none
  | some pp =>
    let stay_areas := (identify_stay_areas_improved pp d cfg).1
    let routed := routeLoop d b cfg pp stay_areas pp [] []
    some (if routed.length ≠ 0 ∧ (routed.headI.time).isSome then
      sortByTime routed else routed)

theorem findAreaFor_some {point : GPoint} {processed : List ℕ} :
    ∀ {areas area}, findAreaFor point processed areas = some area →
      area ∈ areas ∧ point ∈ area ∧ area.headI.pid ∉ processed := by
  intro areas
  induction areas with
  | nil => intro area h; simp [findAreaFor] at h
  | cons A rest ih =>
    intro area h
    simp only [findAreaFor] at h
    by_cases hc : point ∈ A ∧ A.headI.pid ∉ processed
    · rw [if_pos hc, Option.some.injEq] at h
      subst h
      exact ⟨List.mem_cons_self A rest, hc.1, hc.2⟩
    · rw [if_neg hc] at h
      obtain ⟨h1, h2, h3⟩ := ih h
      exact ⟨List.mem_cons_of_mem A h1, h2, h3⟩

theorem findAreaFor_none {point : GPoint} {processed : List ℕ} :
    ∀ {areas}, findAreaFor point processed areas = none →
      ∀ A ∈ areas, point ∈ A → A.headI.pid ∈ processed := by
  intro areas
  induction areas with
  | nil => intro _ A hA; simp at hA
  | cons C rest ih =>
    intro h A hA hp
    simp only [findAreaFor] at h
    by_cases hc : point ∈ C ∧ C.headI.pid ∉ processed
    · rw [if_pos hc] at h
      exact absurd h (by simp)
    · rw [if_neg hc] at h
      rcases List.mem_cons.mp hA with rfl | hA2
      · by_contra hmem
        exact hc ⟨hp, hmem⟩
      · exact ih h A hA2 hp

theorem pid_mem_unique_area {areas : List (List GPoint)}
    (hflat : (areas.flatten.map GPoint.pid).Nodup) :
    ∀ A ∈ areas, ∀ B ∈ areas, ∀ x : ℕ,
      x ∈ A.map GPoint.pid → x ∈ B.map GPoint.pid → A = B := by
  induction areas with
  | nil => simp
  | cons C rest ih =>
    intro A hA B hB x hxA hxB
    rw [List.flatten_cons, List.map_append, List.nodup_append] at hflat
    obtain ⟨hC, hrest, hdisj⟩ := hflat
    have hjoin : ∀ E ∈ rest, ∀ y : ℕ, y ∈ E.map GPoint.pid →
        y ∈ rest.flatten.map GPoint.pid := by
      intro E hE y hy
      obtain ⟨e, he1, he2⟩ := List.exists_of_mem_map hy
      exact he2 ▸ List.mem_map_of_mem GPoint.pid
        (List.mem_flatten.mpr ⟨E, hE, he1⟩)
    rcases List.mem_cons.mp hA with rfl | hA2
    · rcases List.mem_cons.mp hB with rfl | hB2
      · rfl
      · exact absurd (hjoin B hB2 x hxB) (hdisj hxA)
    · rcases List.mem_cons.mp hB with rfl | hB2
      · exact absurd (hjoin A hA2 x hxA) (hdisj hxB)
      · exact ih hrest A hA2 B hB2 x hxA hxB

theorem area_head_pid_inj {areas : List (List GPoint)}
    (hflat : (areas.flatten.map GPoint.pid).Nodup)
    (hlen : ∀ A ∈ areas, A ≠ []) :
    ∀ A ∈ areas, ∀ B ∈ areas, A.headI.pid = B.headI.pid → A = B := by
  intro A hA B hB h
  refine pid_mem_unique_area hflat A hA B hB A.headI.pid ?_ ?_
  · exact List.mem_map_of_mem GPoint.pid (headI_mem (hlen A hA))
  · rw [h]
    exact List.mem_map_of_mem GPoint.pid (headI_mem (hlen B hB))

theorem mem_stay_pids {areas : List (List GPoint)} {A : List GPoint}
    {x : GPoint} (hA : A ∈ areas) (hx : x ∈ A) :
    x.pid ∈ stay_pids areas :=
  List.mem_map_of_mem GPoint.pid (List.mem_flatten.mpr ⟨A, hA, hx⟩)

theorem routeLoop_master (d : ℚ → ℚ → ℚ → ℚ → ℚ) (b : GPoint → GPoint → ℚ)
    (cfg : Config) (pp : List GPoint) (areas : List (List GPoint))
    (hpp : (pp.map GPoint.pid).Nodup)
    (hflat : (areas.flatten.map GPoint.pid).Nodup)
    (hsub : ∀ A ∈ areas, ∀ x ∈ A, x ∈ pp)
    (hlen : ∀ A ∈ areas, 2 ≤ A.length)
    (hnodA : ∀ A ∈ areas, (A.map GPoint.pid).Nodup) :
    ∀ remaining processed acc,
      (∃ pre, pre ++ remaining = pp) →
      (acc.map GPoint.pid).Nodup →
      (∀ x ∈ acc, x ∈ pp) →
      (∀ x ∈ acc, x.pid ∈ stay_pids areas →
        ∃ B ∈ areas, B.headI.pid ∈ processed ∧ x.pid ∈ B.map GPoint.pid) →
      (∀ q ∈ remaining, q.pid ∉ stay_pids areas →
        q.pid ∉ acc.map GPoint.pid) →
      (∀ A ∈ areas, A.headI.pid ∈ processed →
        ∃ l1 l2, acc = l1 ++
          simplify_stay_area d cfg.max_stay_points A ++ l2) →
      (∀ A ∈ areas, A.headI.pid ∉ processed → ∃ q ∈ remaining, q ∈ A) →
      (((routeLoop d b cfg pp areas remaining processed acc).map
          GPoint.pid).Nodup ∧
        (∀ x ∈ routeLoop d b cfg pp areas remaining processed acc,
          x ∈ pp) ∧
        (∀ A ∈ areas, ∃ l1 l2,
          routeLoop d b cfg pp areas remaining processed acc =
            l1 ++ simplify_stay_area d cfg.max_stay_points A ++ l2)) := by
  intro remaining
  induction remaining with
  | nil =>
    intro processed acc _ hnod hsubacc _ _ h6 h7
    refine ⟨hnod, hsubacc, ?_⟩
    intro A hA
    by_cases hproc : A.headI.pid ∈ processed
    · exact h6 A hA hproc
    · obtain ⟨q, hq, _⟩ := h7 A hA hproc
      exact absurd hq (List.not_mem_nil q)
  | cons p rest ih =>
    intro processed acc hsuf hnod hsubacc h3 h4 h6 h7
    obtain ⟨pre, hpre⟩ := hsuf
    have hsuf' : ∃ pre', pre' ++ rest = pp :=
      ⟨pre ++ [p], by rw [← hpre]; simp⟩
    have hpmem : p ∈ pp := by rw [← hpre]; simp
    have hrestNodup : ((p :: rest).map GPoint.pid).Nodup := by
      have hsl : (p :: rest).Sublist pp :=
        hpre ▸ List.sublist_append_right pre (p :: rest)
      exact List.Nodup.sublist (hsl.map GPoint.pid) hpp
    have hpnotrest : p.pid ∉ rest.map GPoint.pid :=
      (List.nodup_cons.mp hrestNodup).1
    simp only [routeLoop]
    by_cases hstay : p.pid ∈ stay_pids areas
    · rw [if_pos hstay]
      cases hfind : findAreaFor p processed areas with
      | some area =>
        obtain ⟨hareamem, hpin, hheadnot⟩ := findAreaFor_some hfind
        have hareane : area ≠ [] := by
          intro he
          have := hlen area hareamem
          rw [he] at this
          simp at this
        have hsimpsub := simplify_stay_area_subset d cfg.max_stay_points
          area hareane
        have hsimpnod := simplify_stay_area_pid_nodup d cfg.max_stay_points
          area (hnodA area hareamem) (hlen area hareamem)
        have hdisj : List.Disjoint (acc.map GPoint.pid)
            ((simplify_stay_area d cfg.max_stay_points area).map
              GPoint.pid) := by
          intro y hy hy2
          obtain ⟨x, hx, hxy⟩ := List.exists_of_mem_map hy
          obtain ⟨z, hz, hzy⟩ := List.exists_of_mem_map hy2
          have hzarea : z ∈ area := hsimpsub z hz
          have hxstay : x.pid ∈ stay_pids areas := by
            rw [hxy, ← hzy]
            exact mem_stay_pids hareamem hzarea
          obtain ⟨B, hB, hBproc, hxB⟩ := h3 x hx hxstay
          have hxarea : x.pid ∈ area.map GPoint.pid := by
            rw [hxy, ← hzy]
            exact List.mem_map_of_mem GPoint.pid hzarea
          have heq : area = B :=
            pid_mem_unique_area hflat area hareamem B hB x.pid hxarea hxB
          rw [heq] at hheadnot
          exact hheadnot hBproc
        refine ih (processed ++ [area.headI.pid])
          (acc ++ simplify_stay_area d cfg.max_stay_points area)
          hsuf' ?_ ?_ ?_ ?_ ?_ ?_
        · rw [List.map_append]
          exact List.nodup_append.mpr ⟨hnod, hsimpnod, hdisj⟩
        · intro x hx
          rcases List.mem_append.mp hx with hx1 | hx1
          · exact hsubacc x hx1
          · exact hsub area hareamem x (hsimpsub x hx1)
        · intro x hx hxstay
          rcases List.mem_append.mp hx with hx1 | hx1
          · obtain ⟨B, hB, hBproc, hxB⟩ := h3 x hx1 hxstay
            exact ⟨B, hB, List.mem_append_left _ hBproc, hxB⟩
          · exact ⟨area, hareamem, List.mem_append_right _ (by simp),
              List.mem_map_of_mem GPoint.pid (hsimpsub x hx1)⟩
        · intro q hq hqstay
          rw [List.map_append]
          intro hqmem
          rcases List.mem_append.mp hqmem with hq1 | hq1
          · exact h4 q (List.mem_cons_of_mem p hq) hqstay hq1
          · obtain ⟨z, hz, hzq⟩ := List.exists_of_mem_map hq1
            apply hqstay
            rw [← hzq]
            exact mem_stay_pids hareamem (hsimpsub z hz)
        · intro A hA hAproc
          rcases List.mem_append.mp hAproc with hA1 | hA1
          · obtain ⟨l1, l2, hacc⟩ := h6 A hA hA1
            exact ⟨l1, l2 ++ simplify_stay_area d cfg.max_stay_points area,
              by rw [hacc]; simp⟩
          · have hAeq : A = area := by
              refine area_head_pid_inj hflat ?_ A hA area hareamem ?_
              · intro E hE he
                have := hlen E hE
                rw [he] at this
                simp at this
              · simpa using hA1
            subst hAeq
            exact ⟨acc, [], by simp⟩
        · intro A hA hAproc
          have hAnotproc : A.headI.pid ∉ processed := by
            intro hmem
            exact hAproc (List.mem_append_left _ hmem)
          obtain ⟨q, hq, hqA⟩ := h7 A hA hAnotproc
          rcases List.mem_cons.mp hq with rfl | hq2
          · exfalso
            have hAeq : A = area := by
              refine pid_mem_unique_area hflat A hA area hareamem q.pid ?_ ?_
              · exact List.mem_map_of_mem GPoint.pid hqA
              · exact List.mem_map_of_mem GPoint.pid hpin
            apply hAproc
            rw [hAeq]
            exact List.mem_append_right _ (by simp)
          · exact ⟨q, hq2, hqA⟩
      | none =>
        refine ih processed acc hsuf' hnod hsubacc h3 ?_ h6 ?_
        · intro q hq hqstay
          exact h4 q (List.mem_cons_of_mem p hq) hqstay
        · intro A hA hAproc
          obtain ⟨q, hq, hqA⟩ := h7 A hA hAproc
          rcases List.mem_cons.mp hq with rfl | hq2
          · exact absurd (findAreaFor_none hfind A hA hqA) hAproc
          · exact ⟨q, hq2, hqA⟩
    · rw [if_neg hstay]
      by_cases hkeep : should_keep_moving_point d b cfg.moving_threshold p
          pp acc = true
      · rw [if_pos hkeep]
        refine ih processed (acc ++ [p]) hsuf' ?_ ?_ ?_ ?_ ?_ ?_
        · rw [List.map_append]
          refine List.nodup_append.mpr ⟨hnod, by simp, ?_⟩
          intro y hy hy2
          rcases List.mem_singleton.mp (by simpa using hy2) with rfl
          exact h4 p (List.mem_cons_self p rest) hstay hy
        · intro x hx
          rcases List.mem_append.mp hx with hx1 | hx1
          · exact hsubacc x hx1
          · rcases List.mem_singleton.mp hx1 with rfl
            exact hpmem
        · intro x hx hxstay
          rcases List.mem_append.mp hx with hx1 | hx1
          · exact h3 x hx1 hxstay
          · rcases List.mem_singleton.mp hx1 with rfl
            exact absurd hxstay hstay
        · intro q hq hqstay
          rw [List.map_append]
          intro hqmem
          rcases List.mem_append.mp hqmem with hq1 | hq1
          · exact h4 q (List.mem_cons_of_mem p hq) hqstay hq1
          · rcases List.mem_singleton.mp (by simpa using hq1) with hq2
            apply hpnotrest
            rw [← hq2]
            exact List.mem_map_of_mem GPoint.pid hq
        · intro A hA hAproc
          obtain ⟨l1, l2, hacc⟩ := h6 A hA hAproc
          exact ⟨l1, l2 ++ [p], by rw [hacc]; simp⟩
        · intro A hA hAproc
          obtain ⟨q, hq, hqA⟩ := h7 A hA hAproc
          rcases List.mem_cons.mp hq with rfl | hq2
          · exact absurd (mem_stay_pids hA hqA) hstay
          · exact ⟨q, hq2, hqA⟩
      · rw [if_neg hkeep]
        refine ih processed acc hsuf' hnod hsubacc h3 ?_ h6 ?_
        · intro q hq hqstay
          exact h4 q (List.mem_cons_of_mem p hq) hqstay
        · intro A hA hAproc
          obtain ⟨q, hq, hqA⟩ := h7 A hA hAproc
          rcases List.mem_cons.mp hq with rfl | hq2
          · exact absurd (mem_stay_pids hA hqA) hstay
          · exact ⟨q, hq2, hqA⟩

theorem buptPickStep_snd (d : ℚ → ℚ → ℚ → ℚ → ℚ) (c : ℚ × ℚ)
    (s2 : List GPoint) (acc : Option ℚ × Option GPoint) (p : GPoint) :
    (buptPickStep d c s2 acc p).2 = some p ∨
      (buptPickStep d c s2 acc p).2 = acc.2 := by
  unfold buptPickStep
  by_cases h : (match acc.1 with
      | none => true
      | some m => decide (d p.lat p.lon c.1 c.2 < m)) = true ∧ p ∉ s2
  · rw [if_pos h]
    exact Or.inl rfl
  · rw [if_neg h]
    exact Or.inr rfl

theorem buptPickStep_foldl_mem (d : ℚ → ℚ → ℚ → ℚ → ℚ) (c : ℚ × ℚ)
    (s2 : List GPoint) :
    ∀ (l : List GPoint) (acc : Option ℚ × Option GPoint),
      (l.foldl (buptPickStep d c s2) acc).2 = acc.2 ∨
        ∃ z ∈ l, (l.foldl (buptPickStep d c s2) acc).2 = some z := by
  intro l
  induction l with
  | nil => intro acc; exact Or.inl rfl
  | cons p rest ih =>
    intro acc
    rw [List.foldl_cons]
    rcases ih (buptPickStep d c s2 acc p) with h | h
    · rcases buptPickStep_snd d c s2 acc p with h2 | h2
      · exact Or.inr ⟨p, List.mem_cons_self p rest, by rw [h, h2]⟩
      · exact Or.inl (by rw [h, h2])
    · obtain ⟨z, hz, he⟩ := h
      exact Or.inr ⟨z, List.mem_cons_of_mem p hz, he⟩

theorem buptStage1_subset (count : ℕ) (cluster : List GPoint)
    (hne : cluster ≠ []) : ∀ x ∈ buptStage1 count cluster, x ∈ cluster := by
  intro x hx
  unfold buptStage1 at hx
  by_cases h : 1 ≤ count
  · rw [if_pos h] at hx
    rcases List.mem_singleton.mp hx with rfl
    exact headI_mem hne
  · rw [if_neg h] at hx
    exact absurd hx (List.not_mem_nil x)

theorem buptStage2_subset (count : ℕ) (cluster s1 s2 : List GPoint)
    (hne : cluster ≠ []) (hs1 : ∀ x ∈ s1, x ∈ cluster)
    (h : buptStage2 count cluster s1 = some s2) :
    ∀ x ∈ s2, x ∈ cluster := by
  unfold buptStage2 at h
  have hsne : sortByTime cluster ≠ [] := by
    intro he
    apply hne
    have := sortByTime_length cluster
    rw [he] at this
    exact List.eq_nil_of_length_eq_zero this.symm
  by_cases h1 : 2 ≤ count
  · rw [if_pos h1] at h
    by_cases h2 : (cluster.headI.time).isSome = true ∧
        ((cluster.getLast!).time).isSome = true
    · rw [if_pos h2] at h
      by_cases h3 : cluster.all (fun p => p.time.isSome) = true
      · rw [if_pos h3, Option.some.injEq] at h
        subst h
        intro x hx
        have hh : (sortByTime cluster).headI ∈ cluster :=
          sortByTime_subset cluster (headI_mem hsne)
        have hl : (sortByTime cluster).getLast! ∈ cluster :=
          sortByTime_subset cluster (getLast!_mem hsne)
        have hs2a : ∀ y ∈ (if (sortByTime cluster).headI ∈ s1 then s1
            else s1 ++ [(sortByTime cluster).headI]), y ∈ cluster := by
          intro y hy
          by_cases hc : (sortByTime cluster).headI ∈ s1
          · rw [if_pos hc] at hy
            exact hs1 y hy
          · rw [if_neg hc] at hy
            rcases List.mem_append.mp hy with hy1 | hy1
            · exact hs1 y hy1
            · rcases List.mem_singleton.mp hy1 with rfl
              exact hh
        by_cases hc2 : (sortByTime cluster).getLast! ∈
            (if (sortByTime cluster).headI ∈ s1 then s1
              else s1 ++ [(sortByTime cluster).headI])
        · rw [if_pos hc2] at hx
          exact hs2a x hx
        · rw [if_neg hc2] at hx
          rcases List.mem_append.mp hx with hx1 | hx1
          · exact hs2a x hx1
          · rcases List.mem_singleton.mp hx1 with rfl
            exact hl
      · rw [if_neg h3] at h
        exact absurd h (by simp)
    · rw [if_neg h2, Option.some.injEq] at h
      subst h
      intro x hx
      by_cases hc : cluster.getLast! ∈ s1
      · rw [if_pos hc] at hx
        exact hs1 x hx
      · rw [if_neg hc] at hx
        rcases List.mem_append.mp hx with hx1 | hx1
        · exact hs1 x hx1
        · rcases List.mem_singleton.mp hx1 with rfl
          exact getLast!_mem hne
  · rw [if_neg h1, Option.some.injEq] at h
    subst h
    exact hs1

theorem buptStage3_subset (d : ℚ → ℚ → ℚ → ℚ → ℚ) (count : ℕ)
    (cluster s2 : List GPoint) (hs2 : ∀ x ∈ s2, x ∈ cluster) :
    ∀ x ∈ buptStage3 d count cluster s2, x ∈ cluster := by
  intro x hx
  unfold buptStage3 at hx
  by_cases h1 : 3 ≤ count
  · rw [if_pos h1] at hx
    cases hp : (cluster.foldl (buptPickStep d (clusterCenter cluster) s2)
        (none, none)).2 with
    | none =>
      rw [hp] at hx
      exact hs2 x hx
    | some cp =>
      rw [hp] at hx
      rcases List.mem_append.mp hx with hx1 | hx1
      · exact hs2 x hx1
      · rcases List.mem_singleton.mp hx1 with rfl
        rcases buptPickStep_foldl_mem d (clusterCenter cluster) s2 cluster
            ((none : Option ℚ), (none : Option GPoint)) with hm | hm
        · rw [hp] at hm
          exact absurd hm (by simp)
        · obtain ⟨z, hz, he⟩ := hm
          rw [hp, Option.some.injEq] at he
          rw [he]
          exact hz
  · rw [if_neg h1] at hx
    exact hs2 x hx

theorem buptPad_good (count : ℕ) (cluster final1 : List GPoint)
    (hclnod : (cluster.map GPoint.pid).Nodup)
    (hf1sub : ∀ x ∈ final1, x ∈ cluster)
    (hf1nod : (final1.map GPoint.pid).Nodup) :
    (∀ x ∈ buptPad count cluster final1, x ∈ cluster) ∧
      ((buptPad count cluster final1).map GPoint.pid).Nodup := by
  unfold buptPad
  by_cases h1 : final1.length < count
  · rw [if_pos h1]
    have hremsl : (cluster.filter
        (fun p => p.pid ∉ final1.map GPoint.pid)).Sublist cluster :=
      List.filter_sublist cluster
    have hremnod : ((cluster.filter
        (fun p => p.pid ∉ final1.map GPoint.pid)).map GPoint.pid).Nodup :=
      List.Nodup.sublist (hremsl.map GPoint.pid) hclnod
    have hsortnod := sortByTime_pid_nodup hremnod
    have htakesl := List.take_sublist (count - final1.length)
      (sortByTime (cluster.filter (fun p => p.pid ∉ final1.map GPoint.pid)))
    have htakenod := List.Nodup.sublist (htakesl.map GPoint.pid) hsortnod
    have htakesub : ∀ x ∈ (sortByTime (cluster.filter
        (fun p => p.pid ∉ final1.map GPoint.pid))).take
          (count - final1.length),
        x ∈ cluster.filter (fun p => p.pid ∉ final1.map GPoint.pid) :=
      fun x hx => sortByTime_subset _ (htakesl.subset hx)
    constructor
    · intro x hx
      rcases List.mem_append.mp hx with hx1 | hx1
      · exact hf1sub x hx1
      · exact hremsl.subset (htakesub x hx1)
    · rw [List.map_append]
      refine List.nodup_append.mpr ⟨hf1nod, htakenod, ?_⟩
      intro y hy hy2
      obtain ⟨z, hz, hzy⟩ := List.exists_of_mem_map hy2
      have hzfil := htakesub z hz
      have := List.mem_filter.mp hzfil
      have hznot : z.pid ∉ final1.map GPoint.pid := by
        simpa using this.2
      apply hznot
      rw [hzy]
      exact hy
  · rw [if_neg h1]
    exact ⟨hf1sub, hf1nod⟩

theorem buptFinalSort_perm (l : List GPoint) :
    List.Perm (buptFinalSort l) l := by
  unfold buptFinalSort
  by_cases h : l.length ≠ 0 ∧ (l.headI.time).isSome = true
  · rw [if_pos h]
    exact sortByTime_perm l
  · rw [if_neg h]

theorem simplify_bupt_cluster_good (d : ℚ → ℚ → ℚ → ℚ → ℚ) (count : ℕ)
    (cluster s : List GPoint) (hn : (cluster.map GPoint.pid).Nodup)
    (h : simplify_bupt_cluster d count cluster = some s) :
    (∀ x ∈ s, x ∈ cluster) ∧ (s.map GPoint.pid).Nodup := by
  unfold simplify_bupt_cluster at h
  by_cases h0 : cluster.length = 0
  · rw [if_pos h0, Option.some.injEq] at h
    subst h
    exact ⟨by simp, by simp⟩
  · rw [if_neg h0] at h
    by_cases h1 : cluster.length ≤ count
    · rw [if_pos h1, Option.some.injEq] at h
      subst h
      exact ⟨fun x hx => hx, hn⟩
    · rw [if_neg h1] at h
      cases h2 : buptStage2 count cluster (buptStage1 count cluster) with
      | none =>
        rw [h2] at h
        exact absurd h (by simp)
      | some s2 =>
        rw [h2, Option.some.injEq] at h
        subst h
        have hne : cluster ≠ [] := by
          intro he
          apply h0
          rw [he]
          rfl
        have hs1 := buptStage1_subset count cluster hne
        have hs2sub := buptStage2_subset count cluster
          (buptStage1 count cluster) s2 hne hs1 h2
        have hs3sub := buptStage3_subset d count cluster s2 hs2sub
        have hf1sub : ∀ x ∈ dedupByPid (buptStage3 d count cluster s2),
            x ∈ cluster :=
          fun x hx => hs3sub x ((dedupByPid_sublist _).subset hx)
        have hf1nod := dedupByPid_pid_nodup (buptStage3 d count cluster s2)
        obtain ⟨hpadsub, hpadnod⟩ := buptPad_good count cluster
          (dedupByPid (buptStage3 d count cluster s2)) hn hf1sub hf1nod
        have hperm := buptFinalSort_perm
          (buptPad count cluster (dedupByPid (buptStage3 d count cluster s2)))
        constructor
        · intro x hx
          exact hpadsub x (hperm.subset hx)
        · exact ((hperm.map GPoint.pid).nodup_iff).mpr hpadnod

theorem buptPrePass_good (d : ℚ → ℚ → ℚ → ℚ → ℚ) (count : ℕ) :
    ∀ (points cluster pp : List GPoint),
      ((cluster ++ points).map GPoint.pid).Nodup →
      buptPrePass d count cluster points = some pp →
      (∀ x ∈ pp, x ∈ cluster ++ points) ∧ (pp.map GPoint.pid).Nodup := by
  intro points
  induction points with
  | nil =>
    intro cluster pp hn h
    simp only [buptPrePass] at h
    have hg := simplify_bupt_cluster_good d count cluster pp
      (by simpa using hn) h
    exact ⟨fun x hx => by simpa using hg.1 x hx, hg.2⟩
  | cons p rest ih =>
    intro cluster pp hn h
    simp only [buptPrePass] at h
    by_cases hin : is_in_bupt_area p.lat p.lon = true
    · rw [if_pos hin] at h
      have hn' : ((cluster ++ [p] ++ rest).map GPoint.pid).Nodup := by
        rw [List.append_assoc]
        simpa using hn
      obtain ⟨hsub, hnod⟩ := ih (cluster ++ [p]) pp hn' h
      refine ⟨fun x hx => ?_, hnod⟩
      have hx2 := hsub x hx
      rw [List.append_assoc] at hx2
      simpa using hx2
    · rw [if_neg hin] at h
      cases h2 : simplify_bupt_cluster d count cluster with
      | none =>
        rw [h2] at h
        exact absurd h (by simp)
      | some scl =>
        rw [h2] at h
        cases h3 : buptPrePass d count [] rest with
        | none =>
          rw [h3] at h
          exact absurd h (by simp)
        | some tail =>
          rw [h3] at h
          simp only [Option.some.injEq] at h
          subst h
          rw [List.map_append, List.nodup_append] at hn
          obtain ⟨hclnod, hprestnod, hdisj⟩ := hn
          have hpnod : p.pid ∉ rest.map GPoint.pid ∧
              (rest.map GPoint.pid).Nodup := by
            rw [List.map_cons, List.nodup_cons] at hprestnod
            exact hprestnod
          have hgcl := simplify_bupt_cluster_good d count cluster scl
            hclnod h2
          have hgtail := ih [] tail (by simpa using hpnod.2) h3
          have htailsub : ∀ x ∈ tail, x ∈ rest := fun x hx => by
            simpa using hgtail.1 x hx
          constructor
          · intro x hx
            rcases List.mem_append.mp hx with hx1 | hx1
            · exact List.mem_append_left _ (hgcl.1 x hx1)
            · rcases List.mem_cons.mp hx1 with rfl | hx2
              · exact List.mem_append_right _ (List.mem_cons_self x rest)
              · exact List.mem_append_right _
                  (List.mem_cons_of_mem p (htailsub x hx2))
          · rw [List.map_append]
            refine List.nodup_append.mpr ⟨hgcl.2, ?_, ?_⟩
            · simp only [List.map_cons, List.nodup_cons]
              refine ⟨?_, hgtail.2⟩
              intro hmem
              obtain ⟨z, hz, hzp⟩ := List.exists_of_mem_map hmem
              apply hpnod.1
              rw [← hzp]
              exact List.mem_map_of_mem GPoint.pid (htailsub z hz)
            · intro y hy hy2
              obtain ⟨x, hx, hxy⟩ := List.exists_of_mem_map hy
              have hyc : y ∈ cluster.map GPoint.pid := by
                rw [← hxy]
                exact List.mem_map_of_mem GPoint.pid (hgcl.1 x hx)
              apply hdisj hyc
              simp only [List.map_cons] at hy2 ⊢
              rcases List.mem_cons.mp hy2 with rfl | hy3
              · exact List.mem_cons_self _ _
              · obtain ⟨z, hz, hzy⟩ := List.exists_of_mem_map hy3
                refine List.mem_cons_of_mem _ ?_
                rw [← hzy]
                exact List.mem_map_of_mem GPoint.pid (htailsub z hz)

theorem pipeline_routed_facts (d : ℚ → ℚ → ℚ → ℚ → ℚ)
    (b : GPoint → GPoint → ℚ) (cfg : Config) (pp : List GPoint)
    (hppnod : (pp.map GPoint.pid).Nodup) :
    (((identify_stay_areas_improved pp d cfg).1.flatten.map
      GPoint.pid).Nodup) ∧
    (∀ A ∈ (identify_stay_areas_improved pp d cfg).1, ∀ z ∈ A, z ∈ pp) ∧
    (∀ A ∈ (identify_stay_areas_improved pp d cfg).1, 2 ≤ A.length) ∧
    (((routeLoop d b cfg pp (identify_stay_areas_improved pp d cfg).1 pp
      [] []).map GPoint.pid).Nodup) ∧
    (∀ z ∈ routeLoop d b cfg pp (identify_stay_areas_improved pp d cfg).1
      pp [] [], z ∈ pp) ∧
    (∀ A ∈ (identify_stay_areas_improved pp d cfg).1, ∃ l1 l2,
      routeLoop d b cfg pp (identify_stay_areas_improved pp d cfg).1 pp
        [] [] =
        l1 ++ simplify_stay_area d cfg.max_stay_points A ++ l2) := by
  have hflatsl : ((identify_stay_areas_improved pp d cfg).1.flatten).Sublist
      pp := by
    have := identifyAux_areas_flatten_sublist pp d cfg (pp.length + 1) 0
    rwa [List.drop_zero] at this
  have hflat : (((identify_stay_areas_improved pp d cfg).1.flatten.map
      GPoint.pid)).Nodup :=
    List.Nodup.sublist (hflatsl.map GPoint.pid) hppnod
  have hsub : ∀ A ∈ (identify_stay_areas_improved pp d cfg).1,
      ∀ z ∈ A, z ∈ pp := by
    intro A hA z hz
    exact hflatsl.subset (List.mem_flatten.mpr ⟨A, hA, hz⟩)
  have hlen : ∀ A ∈ (identify_stay_areas_improved pp d cfg).1,
      2 ≤ A.length := by
    intro A hA
    exact is_stay_area_length
      (identifyAux_areas_valid pp d cfg (pp.length + 1) 0 A hA)
  have hnodA : ∀ A ∈ (identify_stay_areas_improved pp d cfg).1,
      (A.map GPoint.pid).Nodup := by
    intro A hA
    exact List.Nodup.sublist ((List.sublist_flatten_of_mem hA).map
      GPoint.pid) hflat
  obtain ⟨hm1, hm2, hm3⟩ := routeLoop_master d b cfg pp
    (identify_stay_areas_improved pp d cfg).1 hppnod hflat hsub hlen hnodA
    pp [] [] ⟨[], by simp⟩ (by simp) (by simp) (by simp) (by simp)
    (by simp)
    (by
      intro A hA _
      refine ⟨A.headI, hsub A hA A.headI ?_, ?_⟩
      · apply headI_mem
        intro he
        have := hlen A hA
        rw [he] at this
        simp at this
      · apply headI_mem
        intro he
        have := hlen A hA
        rw [he] at this
        simp at this)
  exact ⟨hflat, hsub, hlen, hm1, hm2, hm3⟩

theorem simplify_core_good (d : ℚ → ℚ → ℚ → ℚ → ℚ)
    (b : GPoint → GPoint → ℚ) (cfg : Config) (x y : List GPoint)
    (hx : (x.map GPoint.pid).Nodup)
    (h : simplify_gpx_improved_core d b cfg x = some y) :
    (∀ p ∈ y, p ∈ x) ∧ (y.map GPoint.pid).Nodup ∧ y.length ≤ x.length := by
  unfold simplify_gpx_improved_core at h
  cases hpp : buptPrePass d cfg.bupt_count [] x with
  | none =>
    rw [hpp] at h
    exact absurd h (by simp)
  | some pp =>
    rw [hpp] at h
    simp only [Option.some.injEq] at h
    obtain ⟨hppsub', hppnod⟩ := buptPrePass_good d cfg.bupt_count x [] pp
      (by simpa using hx) hpp
    have hppsub : ∀ z ∈ pp, z ∈ x := fun z hz => by
      simpa using hppsub' z hz
    obtain ⟨_, _, _, hroutnod, hroutsub, _⟩ :=
      pipeline_routed_facts d b cfg pp hppnod
    have hyperm : List.Perm y
        (routeLoop d b cfg pp (identify_stay_areas_improved pp d cfg).1 pp
          [] []) := by
      rw [← h]
      by_cases hc : (routeLoop d b cfg pp
          (identify_stay_areas_improved pp d cfg).1 pp [] []).length ≠ 0 ∧
          ((routeLoop d b cfg pp (identify_stay_areas_improved pp d cfg).1
            pp [] []).headI.time).isSome = true
      · rw [if_pos hc]
        exact sortByTime_perm _
      · rw [if_neg hc]
    have hynod : (y.map GPoint.pid).Nodup :=
      ((hyperm.map GPoint.pid).nodup_iff).mpr hroutnod
    have hysub : ∀ p ∈ y, p ∈ x := fun p hp =>
      hppsub p (hroutsub p (hyperm.subset hp))
    refine ⟨hysub, hynod, ?_⟩
    have hpplen : pp.length ≤ x.length := by
      have hsp : (pp.map GPoint.pid).Subperm (x.map GPoint.pid) := by
        refine hppnod.subperm ?_
        intro q hq
        obtain ⟨z, hz, hzq⟩ := List.exists_of_mem_map hq
        rw [← hzq]
        exact List.mem_map_of_mem GPoint.pid (hppsub z hz)
      have := hsp.length_le
      rwa [List.length_map, List.length_map] at this
    have hylen : y.length ≤ pp.length := by
      have hsp : (y.map GPoint.pid).Subperm (pp.map GPoint.pid) := by
        refine hynod.subperm ?_
        intro q hq
        obtain ⟨z, hz, hzq⟩ := List.exists_of_mem_map hq
        rw [← hzq]
        exact List.mem_map_of_mem GPoint.pid
          (hroutsub z (hyperm.subset hz))
      have := hsp.length_le
      rwa [List.length_map, List.length_map] at this
    omega

/-- C8: running the full core pipeline on its own output yields a point
count at most that of the first pass's output.  The `Nodup` hypothesis
models Python's always-distinct object identities; the two `some`
hypotheses say that neither run raises. -/
theorem C8_pipeline_contraction (d : ℚ → ℚ → ℚ → ℚ → ℚ)
    (b : GPoint → GPoint → ℚ) (cfg : Config) (x y z : List GPoint)
    (hx : (x.map GPoint.pid).Nodup)
    (h1 : simplify_gpx_improved_core d b cfg x = some y)
    (h2 : simplify_gpx_improved_core d b cfg y = some z) :
    z.length ≤ y.length := by
  obtain ⟨_, hynod, _⟩ := simplify_core_good d b cfg x y hx h1
  exact (simplify_core_good d b cfg y z hynod h2).2.2

/-- Witness for C8: both pipeline runs on the empty trajectory succeed and
return the empty list. -/
theorem C8_pipeline_contraction_witness :
    (([] : List GPoint).map GPoint.pid).Nodup ∧
    simplify_gpx_improved_core dZero bZero cfgT [] = some [] ∧
    (([] : List GPoint)).length ≤ (([] : List GPoint)).length :=
  ⟨by decide, by decide,
    C8_pipeline_contraction dZero bZero cfgT [] [] [] (by decide)
      (by decide) (by decide)⟩

/-- C5: with distinct point identities (Python object identities always
are), in one pipeline invocation over the zone-filtered sequence `pp`:
no identity occurs in two stay areas, so the containing stay area of any
stay point is unique and every filtered point takes exactly one route
(its stay area's one-time simplification, or the moving-point check);
each stay area's simplification appears as one contiguous block of the
routing output; and no point identity occurs twice in the routing output
nor in the pipeline's final output. -/
theorem C5_exactly_once_routing (d : ℚ → ℚ → ℚ → ℚ → ℚ)
    (b : GPoint → GPoint → ℚ) (cfg : Config) (pts pp : List GPoint)
    (hN : (pts.map GPoint.pid).Nodup)
    (hpp : buptPrePass d cfg.bupt_count [] pts = some pp) :
    (((identify_stay_areas_improved pp d cfg).1.flatten.map
      GPoint.pid).Nodup) ∧
    (∀ A ∈ (identify_stay_areas_improved pp d cfg).1,
      ∀ B ∈ (identify_stay_areas_improved pp d cfg).1,
      ∀ q : ℕ, q ∈ A.map GPoint.pid → q ∈ B.map GPoint.pid → A = B) ∧
    (∀ A ∈ (identify_stay_areas_improved pp d cfg).1, ∃ l1 l2,
      routeLoop d b cfg pp (identify_stay_areas_improved pp d cfg).1 pp
        [] [] = l1 ++ simplify_stay_area d cfg.max_stay_points A ++ l2) ∧
    (((routeLoop d b cfg pp (identify_stay_areas_improved pp d cfg).1 pp
      [] []).map GPoint.pid).Nodup) ∧
    (∀ out, simplify_gpx_improved_core d b cfg pts = some out →
      (out.map GPoint.pid).Nodup) := by
  have hppnod : (pp.map GPoint.pid).Nodup :=
    (buptPrePass_good d cfg.bupt_count pts [] pp (by simpa using hN)
      hpp).2
  obtain ⟨hflat, hsub, hlen, hroutnod, hroutsub, hblocks⟩ :=
    pipeline_routed_facts d b cfg pp hppnod
  refine ⟨hflat, ?_, hblocks, hroutnod, ?_⟩
  · intro A hA B hB q hqA hqB
    exact pid_mem_unique_area hflat A hA B hB q hqA hqB
  · intro out hout
    exact (simplify_core_good d b cfg pts out hN hout).2.1

/-- Witness point for C5: outside the override zone, timestamp 0. -/
def m0 : GPoint := ⟨40, 1, 1, some 0⟩

/-- Witness point for C5: outside the override zone, timestamp 1000. -/
def m1 : GPoint := ⟨41, 2, 2, some 1000⟩

/-- Witness for C5 at the two-point trajectory `[m0, m1]` (the zone filter
passes both points through untouched). -/
theorem C5_exactly_once_routing_witness :
    (([m0, m1] : List GPoint).map GPoint.pid).Nodup ∧
    buptPrePass dZero cfgT.bupt_count [] [m0, m1] = some [m0, m1] ∧
    ((((identify_stay_areas_improved [m0, m1] dZero cfgT).1.flatten.map
      GPoint.pid).Nodup) ∧
    (∀ A ∈ (identify_stay_areas_improved [m0, m1] dZero cfgT).1,
      ∀ B ∈ (identify_stay_areas_improved [m0, m1] dZero cfgT).1,
      ∀ q : ℕ, q ∈ A.map GPoint.pid → q ∈ B.map GPoint.pid → A = B) ∧
    (∀ A ∈ (identify_stay_areas_improved [m0, m1] dZero cfgT).1,
      ∃ l1 l2,
      routeLoop dZero bZero cfgT [m0, m1]
        (identify_stay_areas_improved [m0, m1] dZero cfgT).1 [m0, m1]
        [] [] = l1 ++ simplify_stay_area dZero cfgT.max_stay_points A ++
          l2) ∧
    (((routeLoop dZero bZero cfgT [m0, m1]
      (identify_stay_areas_improved [m0, m1] dZero cfgT).1 [m0, m1]
      [] []).map GPoint.pid).Nodup) ∧
    (∀ out, simplify_gpx_improved_core dZero bZero cfgT [m0, m1] =
      some out → (out.map GPoint.pid).Nodup)) :=
  ⟨by decide,
    by norm_num [buptPrePass, is_in_bupt_area, bupt_min_lat, bupt_max_lat,
      bupt_min_lon, bupt_max_lon, m0, m1, simplify_bupt_cluster, cfgT],
    C5_exactly_once_routing dZero bZero cfgT [m0, m1] [m0, m1]
      (by decide)
      (by norm_num [buptPrePass, is_in_bupt_area, bupt_min_lat,
        bupt_max_lat, bupt_min_lon, bupt_max_lon, m0, m1,
        simplify_bupt_cluster, cfgT])⟩

end Gpx
